import Mathlib

/-!
Verification development for the superduperdb test-environment
service-readiness orchestration model.

The repository ships the concrete descriptor store
`deploy/testenv/docker-compose.yaml`; the orchestration core itself
(dependency graph builder, health prober, readiness orchestrator) is
described only by the specification, so those components are modelled
here from the specification's words and the compose file is embedded
as the concrete descriptor store.
-/

set_option maxHeartbeats 1000000
set_option maxRecDepth 4000

/-- Lifecycle status of a service, from the spec state machine
`Pending → Launching → Running → (Healthy | Unhealthy) → Completed | Failed`. -/
inductive Status where
  | pending
  | launching
  | running
  | healthy
  | unhealthy
  | completed
  | failed
deriving DecidableEq, Repr

/-- Edge condition carried by a dependency edge: wait until the target has
started, is healthy, or has exited successfully exactly once. -/
inductive Condition where
  | started
  | healthy
  | completedSuccessfully
deriving DecidableEq, Repr

/-- A dependency edge: target service name plus the condition that must be
satisfied before the dependent may launch. -/
structure DependencyEdge where
  target : String
  cond : Condition
deriving DecidableEq, Repr

/-- Health-check specification: probe action (opaque command string),
`interval`, `timeout`, `retries`, `startPeriod`, all durations in seconds. -/
structure HealthCheckSpec where
  test : String
  interval : Nat
  timeout : Nat
  retries : Nat
  startPeriod : Nat
deriving DecidableEq, Repr

/-- Static definition of one service: identity, launch command (none means
the image default is used), dependency edges, optional health check. -/
structure ServiceDescriptor where
  name : String
  command : Option String
  edges : List DependencyEdge
  healthcheck : Option HealthCheckSpec
deriving DecidableEq, Repr

def svcNames (ds : List ServiceDescriptor) : List String :=
  ds.map (fun d => d.name)

def lookupSvc (ds : List ServiceDescriptor) (s : String) : Option ServiceDescriptor :=
  ds.find? (fun d => d.name == s)

/-- Does service `s` have a dependency edge on service `t`? -/
def edgeB (ds : List ServiceDescriptor) (s t : String) : Bool :=
  match lookupSvc ds s with
  | some d => d.edges.any (fun e => e.target == t)
  | none => false

/- Service name constants of the concrete descriptor store. -/

def nMongodb : String := "mongodb"
def nMongoInit : String := "mongo-init"
def nVectorSearch : String := "vector-search"
def nVsInit : String := "vector-search-init"
def nCdc : String := "cdc"
def nCdcInit : String := "cdc-init"
def nDaskScheduler : String := "dask-scheduler"
def nDaskWorker : String := "dask-worker"
def nGrafana : String := "grafana"
def nLoki : String := "loki"
def nPromtail : String := "promtail"
def nPrometheus : String := "prometheus"
def nCadvisor : String := "cadvisor"
def nDemo : String := "demo-notebooks"

/-- Health check of the `vector-search` service
(docker-compose.yaml lines 55-60). -/
def vectorSearchHC : HealthCheckSpec :=
  { test := "curl http://localhost:8000/health || exit 1"
    interval := 40
    timeout := 30
    retries := 10
    startPeriod := 60 }

/-- Health check of the `cdc` service (docker-compose.yaml lines 90-95). -/
def cdcHC : HealthCheckSpec :=
  { test := "curl http://localhost:8001/health || exit 1"
    interval := 40
    timeout := 30
    retries := 10
    startPeriod := 60 }

/- Per-service descriptors embedded from `deploy/testenv/docker-compose.yaml`.
A bare `depends_on` list entry is a `started` edge; `condition:` entries
carry their declared condition. -/

def mongodbD : ServiceDescriptor :=
  { name := nMongodb
    command := some ("mongod --replSet rs0 --port 27017 --bind_ip 0.0.0.0 --dbpath /data/db/")
    edges := []
    healthcheck := none }

def mongoInitD : ServiceDescriptor :=
  { name := nMongoInit
    command := some ("sh -c /scripts/mongo-init.sh")
    edges := [{ target := nMongodb, cond := Condition.started }]
    healthcheck := none }

def vectorSearchD : ServiceDescriptor :=
  { name := nVectorSearch
    command := some ("python -m superduperdb vector-search")
    edges := [{ target := nMongoInit, cond := Condition.completedSuccessfully }]
    healthcheck := some vectorSearchHC }

def vsInitD : ServiceDescriptor :=
  { name := nVsInit
    command := none
    edges := [{ target := nVectorSearch, cond := Condition.healthy }]
    healthcheck := none }

def cdcD : ServiceDescriptor :=
  { name := nCdc
    command := some ("python -m superduperdb cdc")
    edges := [{ target := nMongoInit, cond := Condition.completedSuccessfully }]
    healthcheck := some cdcHC }

def cdcInitD : ServiceDescriptor :=
  { name := nCdcInit
    command := none
    edges := [{ target := nCdc, cond := Condition.healthy }]
    healthcheck := none }

def daskSchedulerD : ServiceDescriptor :=
  { name := nDaskScheduler
    command := some ("PYTHONPATH=./:. dask scheduler --preload deploy/testenv/preload.py")
    edges := [{ target := nMongoInit, cond := Condition.completedSuccessfully }]
    healthcheck := none }

def daskWorkerD : ServiceDescriptor :=
  { name := nDaskWorker
    command := some ("PYTHONPATH=./:. dask worker tcp://scheduler:8786 --preload deploy/testenv/preload.py")
    edges := [{ target := nDaskScheduler, cond := Condition.started }]
    healthcheck := none }

def grafanaD : ServiceDescriptor :=
  { name := nGrafana
    command := none
    edges := [{ target := nLoki, cond := Condition.started }]
    healthcheck := none }

def lokiD : ServiceDescriptor :=
  { name := nLoki
    command := some ("-config.file=/etc/loki/loki-local-config.yaml")
    edges := []
    healthcheck := none }

def promtailD : ServiceDescriptor :=
  { name := nPromtail
    command := some ("-config.file=/etc/promtail/docker-config.yaml")
    edges := [{ target := nLoki, cond := Condition.started }]
    healthcheck := none }

def prometheusD : ServiceDescriptor :=
  { name := nPrometheus
    command := some ("--config.file=/app.cfg/prometheus.yml --storage.tsdb.path=/prometheus")
    edges := []
    healthcheck := none }

def cadvisorD : ServiceDescriptor :=
  { name := nCadvisor
    command := none
    edges := []
    healthcheck := none }

def demoD : ServiceDescriptor :=
  { name := nDemo
    command := some ("jupyter lab --port=8888 --no-browser --ip=0.0.0.0")
    edges :=
      [ { target := nMongoInit, cond := Condition.completedSuccessfully }
      , { target := nVsInit, cond := Condition.completedSuccessfully }
      , { target := nCdcInit, cond := Condition.completedSuccessfully }
      , { target := nDaskScheduler, cond := Condition.started }
      , { target := nDaskWorker, cond := Condition.started } ]
    healthcheck := none }

/-- The concrete descriptor store embedded from
`deploy/testenv/docker-compose.yaml`: one descriptor per declared service,
in file order. -/
def composeDs : List ServiceDescriptor :=
  [ mongodbD, mongoInitD, vectorSearchD, vsInitD, cdcD, cdcInitD
  , daskSchedulerD, daskWorkerD, grafanaD, lokiD, promtailD, prometheusD
  , cadvisorD, demoD ]

/-! ### Runtime state of the Readiness Orchestrator, modelled from the spec -/

/-- Per-service runtime state: current lifecycle status, whether the service
has ever entered `Launching`, and whether its first `Healthy` transition has
occurred (used to satisfy `Healthy` edges, which are one-time gates). -/
structure SState where
  status : Status
  launched : Bool
  everHealthy : Bool
deriving DecidableEq, Repr

/-- Whole-run state: one runtime record per declared service name. -/
def OrchState : Type := List (String × SState)

instance : DecidableEq OrchState := by
  unfold OrchState
  infer_instance

def initSState : SState :=
  { status := Status.pending, launched := false, everHealthy := false }

def getS (σ : OrchState) (s : String) : SState :=
  match σ.find? (fun p => p.fst == s) with
  | some p => p.snd
  | none => initSState

def setS (σ : OrchState) (s : String) (v : SState) : OrchState :=
  σ.map (fun p => if p.fst == s then (s, v) else p)

/-- Modelled from the spec: initial orchestrator state, every declared
service `Pending`, not launched, never healthy. -/
def initState (ds : List ServiceDescriptor) : OrchState :=
  ds.map (fun d => (d.name, initSState))

/-- Modelled from the spec: edge satisfaction per condition type.  `Started`
edges are satisfied once the target has entered `Launching`; `Healthy` edges
on the target's first `Healthy` transition (a service with no health check
counts as healthy upon reaching `Running`); `CompletedSuccessfully` edges
only on the target's `Completed` status. -/
def edgeSatB (σ : OrchState) (e : DependencyEdge) : Bool :=
  match e.cond with
  | Condition.started => (getS σ e.target).launched
  | Condition.healthy => (getS σ e.target).everHealthy
  | Condition.completedSuccessfully => (getS σ e.target).status == Status.completed

/-- Modelled from the spec: a `Pending` service is eligible to launch the
instant every one of its dependency edges is satisfied. -/
def launchGuard (d : ServiceDescriptor) (σ : OrchState) : Bool :=
  ((getS σ d.name).status == Status.pending) && d.edges.all (fun e => edgeSatB σ e)

/-- Modelled from the spec: an edge to a service that reaches `Failed`
without the edge having been satisfied permanently blocks the dependent and
propagates failure. -/
def blockGuard (d : ServiceDescriptor) (σ : OrchState) : Bool :=
  ((getS σ d.name).status == Status.pending) &&
    d.edges.any (fun e => ((getS σ e.target).status == Status.failed) && !(edgeSatB σ e))

/-- The atomic scheduling / lifecycle actions of the Readiness Orchestrator
state machine, one constructor per transition of the spec's state machine. -/
inductive Act where
  | launch (s : String)
  | start (s : String)
  | healthyTr (s : String)
  | unhealthyTr (s : String)
  | complete (s : String)
  | failProc (s : String)
  | block (s : String)
deriving DecidableEq, Repr

/-- Modelled from the spec: one transition of the Readiness Orchestrator.
`launch` fires only when every dependency edge is satisfied; `start` moves a
launched service to `Running` (a service with no health check satisfies
`Healthy` edges immediately upon reaching `Running`); `healthyTr` /
`unhealthyTr` are health-prober transitions for services with a health
check; `complete` is a one-shot service exiting successfully; `failProc` is
a process exiting non-zero (or health retries exhausted with the process
dead); `block` propagates a dependency failure to a still-`Pending`
dependent, which is marked `Failed` without being launched. -/
def applyAct (ds : List ServiceDescriptor) (σ : OrchState) : Act → Option OrchState
  | Act.launch s =>
    match lookupSvc ds s with
    | none => none
    | some d =>
      if launchGuard d σ then
        some (setS σ s { status := Status.launching, launched := true
                         everHealthy := (getS σ s).everHealthy })
      else none
  | Act.start s =>
    match lookupSvc ds s with
    | none => none
    | some d =>
      if (getS σ s).status == Status.launching then
        some (setS σ s { status := Status.running, launched := (getS σ s).launched
                         everHealthy := (getS σ s).everHealthy || d.healthcheck.isNone })
      else none
  | Act.healthyTr s =>
    match lookupSvc ds s with
    | none => none
    | some d =>
      if d.healthcheck.isSome &&
          ((getS σ s).status == Status.running || (getS σ s).status == Status.unhealthy) then
        some (setS σ s { status := Status.healthy, launched := (getS σ s).launched
                         everHealthy := true })
      else none
  | Act.unhealthyTr s =>
    if (getS σ s).status == Status.healthy then
      some (setS σ s { status := Status.unhealthy, launched := (getS σ s).launched
                       everHealthy := (getS σ s).everHealthy })
    else none
  | Act.complete s =>
    if (getS σ s).status == Status.running then
      some (setS σ s { status := Status.completed, launched := (getS σ s).launched
                       everHealthy := (getS σ s).everHealthy })
    else none
  | Act.failProc s =>
    if (getS σ s).status == Status.launching || (getS σ s).status == Status.running ||
        (getS σ s).status == Status.healthy || (getS σ s).status == Status.unhealthy then
      some (setS σ s { status := Status.failed, launched := (getS σ s).launched
                       everHealthy := (getS σ s).everHealthy })
    else none
  | Act.block s =>
    match lookupSvc ds s with
    | none => none
    | some d =>
      if blockGuard d σ then
        some (setS σ s { status := Status.failed, launched := (getS σ s).launched
                         everHealthy := (getS σ s).everHealthy })
      else none

/-- One step of the orchestrator: some action applies. -/
def OrchStep (ds : List ServiceDescriptor) (σ σ' : OrchState) : Prop :=
  ∃ a : Act, applyAct ds σ a = some σ'

/-- A state is reachable in a run of the Readiness Orchestrator over `ds`. -/
def Reachable (ds : List ServiceDescriptor) (σ : OrchState) : Prop :=
  Relation.ReflTransGen (OrchStep ds) (initState ds) σ

/-- Execute a list of actions from a state; `none` if any action is not
enabled.  Used to exhibit concrete runs. -/
def runActs (ds : List ServiceDescriptor) (σ : OrchState) : List Act → Option OrchState
  | [] => some σ
  | a :: rest =>
    match applyAct ds σ a with
    | none => none
    | some σ' => runActs ds σ' rest

theorem runActs_reachable (ds : List ServiceDescriptor) :
    ∀ (acts : List Act) (σ σ' : OrchState), Reachable ds σ →
      runActs ds σ acts = some σ' → Reachable ds σ' := by
  intro acts
  induction acts with
  | nil =>
    intro σ σ' hσ h
    simp only [runActs, Option.some.injEq] at h
    exact h ▸ hσ
  | cons a rest ih =>
    intro σ σ' hσ h
    simp only [runActs] at h
    cases hap : applyAct ds σ a with
    | none => rw [hap] at h; exact absurd h (by simp)
    | some σ1 =>
      rw [hap] at h
      exact ih σ1 σ' (Relation.ReflTransGen.tail hσ ⟨a, hap⟩) h

/-! ### Basic lemmas about the state representation -/

theorem lookup_name {ds : List ServiceDescriptor} {s : String} {d : ServiceDescriptor}
    (h : lookupSvc ds s = some d) : d.name = s := by
  have := List.find?_some h
  simpa using this

theorem lookup_mem {ds : List ServiceDescriptor} {s : String} {d : ServiceDescriptor}
    (h : lookupSvc ds s = some d) : d ∈ ds :=
  List.mem_of_find?_eq_some h

theorem mem_names_of_lookup {ds : List ServiceDescriptor} {s : String} {d : ServiceDescriptor}
    (h : lookupSvc ds s = some d) : s ∈ svcNames ds := by
  have hm := lookup_mem h
  have hn := lookup_name h
  exact hn ▸ List.mem_map_of_mem (fun d => d.name) hm

theorem lookup_of_mem {ds : List ServiceDescriptor} (hnd : (svcNames ds).Nodup)
    {d : ServiceDescriptor} (hm : d ∈ ds) : lookupSvc ds d.name = some d := by
  induction ds with
  | nil => cases hm
  | cons x rest ih =>
    simp only [svcNames, List.map_cons, List.nodup_cons] at hnd
    rcases List.mem_cons.mp hm with h | h
    · subst h
      simp [lookupSvc, List.find?]
    · by_cases hx : x.name = d.name
      · exact absurd (hx ▸ List.mem_map_of_mem (fun d => d.name) h) hnd.1
      · have := ih hnd.2 h
        simpa [lookupSvc, List.find?_cons, hx] using this

theorem setS_cons (p : String × SState) (σ : OrchState) (s : String) (v : SState) :
    setS (p :: σ) s v = (if p.fst == s then (s, v) else p) :: setS σ s v := rfl

theorem getS_cons (p : String × SState) (σ : OrchState) (s : String) :
    getS (p :: σ) s = if p.fst == s then p.snd else getS σ s := by
  by_cases h : p.fst = s
  · have hb : (p.fst == s) = true := by simp [h]
    simp [getS, List.find?, hb]
  · have hb : (p.fst == s) = false := by simp [h]
    simp [getS, List.find?, hb]

theorem keys_setS (σ : OrchState) (s : String) (v : SState) :
    (setS σ s v).map Prod.fst = σ.map Prod.fst := by
  induction σ with
  | nil => rfl
  | cons p rest ih =>
    rw [setS_cons]
    have hone : (if p.fst == s then (s, v) else p).fst = p.fst := by
      by_cases h : p.fst = s
      · simp [h]
      · simp [h]
    simp only [List.map_cons]
    rw [hone, ih]

theorem getS_setS_self {σ : OrchState} {s : String} (v : SState)
    (h : s ∈ σ.map Prod.fst) : getS (setS σ s v) s = v := by
  induction σ with
  | nil => cases h
  | cons p rest ih =>
    rw [setS_cons, getS_cons]
    by_cases hp : p.fst = s
    · have : (if p.fst == s then (s, v) else p) = (s, v) := by simp [hp]
      rw [this]
      simp
    · have h1 : (if p.fst == s then (s, v) else p) = p := by simp [hp]
      have hb : (p.fst == s) = false := by simp [hp]
      rw [h1, hb]
      simp only [Bool.false_eq_true, if_false]
      apply ih
      simp only [List.map_cons, List.mem_cons] at h
      rcases h with h | h
      · exact absurd h.symm hp
      · exact h

theorem getS_setS_ne {σ : OrchState} {s t : String} (v : SState)
    (h : t ≠ s) : getS (setS σ s v) t = getS σ t := by
  induction σ with
  | nil => rfl
  | cons p rest ih =>
    rw [setS_cons, getS_cons, getS_cons]
    by_cases hp : p.fst = s
    · have h1 : (if p.fst == s then (s, v) else p) = (s, v) := by simp [hp]
      have hb : (s == t) = false := by simp [Ne.symm h]
      have hb2 : (p.fst == t) = false := by simp [hp, Ne.symm h]
      rw [h1]
      simp only [hb, hb2, Bool.false_eq_true, if_false]
      exact ih
    · have h1 : (if p.fst == s then (s, v) else p) = p := by simp [hp]
      rw [h1]
      by_cases hpt : p.fst = t
      · have hb : (p.fst == t) = true := by simp [hpt]
        simp [hb]
      · have hb : (p.fst == t) = false := by simp [hpt]
        simp only [hb, Bool.false_eq_true, if_false]
        exact ih

theorem getS_not_mem {σ : OrchState} {s : String}
    (h : s ∉ σ.map Prod.fst) : getS σ s = initSState := by
  induction σ with
  | nil => rfl
  | cons p rest ih =>
    simp only [List.map_cons, List.mem_cons, not_or] at h
    have hb : (p.fst == s) = false := by
      simp [Ne.symm h.1]
    rw [getS_cons]
    simp only [hb, Bool.false_eq_true, if_false]
    exact ih h.2

/-- Every successful action updates exactly one service record. -/
theorem applyAct_shape {ds : List ServiceDescriptor} {σ σ' : OrchState} {a : Act}
    (h : applyAct ds σ a = some σ') : ∃ x v, σ' = setS σ x v := by
  cases a with
  | launch s =>
    cases hl : lookupSvc ds s with
    | none => simp [applyAct, hl] at h
    | some d =>
      simp only [applyAct, hl] at h
      by_cases hg : launchGuard d σ
      · simp only [hg, if_true, Option.some.injEq] at h
        exact ⟨s, _, h.symm⟩
      · simp [hg] at h
  | start s =>
    cases hl : lookupSvc ds s with
    | none => simp [applyAct, hl] at h
    | some d =>
      simp only [applyAct, hl] at h
      by_cases hg : (getS σ s).status == Status.launching
      · simp only [hg, if_true, Option.some.injEq] at h
        exact ⟨s, _, h.symm⟩
      · simp [hg] at h
  | healthyTr s =>
    cases hl : lookupSvc ds s with
    | none => simp [applyAct, hl] at h
    | some d =>
      simp only [applyAct, hl] at h
      by_cases hg : d.healthcheck.isSome &&
          ((getS σ s).status == Status.running || (getS σ s).status == Status.unhealthy)
      · simp only [hg, if_true, Option.some.injEq] at h
        exact ⟨s, _, h.symm⟩
      · simp [hg] at h
  | unhealthyTr s =>
    simp only [applyAct] at h
    by_cases hg : (getS σ s).status == Status.healthy
    · simp only [hg, if_true, Option.some.injEq] at h
      exact ⟨s, _, h.symm⟩
    · simp [hg] at h
  | complete s =>
    simp only [applyAct] at h
    by_cases hg : (getS σ s).status == Status.running
    · simp only [hg, if_true, Option.some.injEq] at h
      exact ⟨s, _, h.symm⟩
    · simp [hg] at h
  | failProc s =>
    simp only [applyAct] at h
    by_cases hg : (getS σ s).status == Status.launching || (getS σ s).status == Status.running ||
        (getS σ s).status == Status.healthy || (getS σ s).status == Status.unhealthy
    · simp only [hg, if_true, Option.some.injEq] at h
      exact ⟨s, _, h.symm⟩
    · simp [hg] at h
  | block s =>
    cases hl : lookupSvc ds s with
    | none => simp [applyAct, hl] at h
    | some d =>
      simp only [applyAct, hl] at h
      by_cases hg : blockGuard d σ
      · simp only [hg, if_true, Option.some.injEq] at h
        exact ⟨s, _, h.symm⟩
      · simp [hg] at h

/-- Representation invariant: the state holds exactly the declared service
names, in store order. -/
def WF (ds : List ServiceDescriptor) (σ : OrchState) : Prop :=
  σ.map Prod.fst = svcNames ds

theorem wf_init (ds : List ServiceDescriptor) : WF ds (initState ds) := by
  simp [WF, initState, svcNames]

theorem wf_apply {ds : List ServiceDescriptor} {σ σ' : OrchState} {a : Act}
    (hwf : WF ds σ) (h : applyAct ds σ a = some σ') : WF ds σ' := by
  obtain ⟨x, v, rfl⟩ := applyAct_shape h
  unfold WF
  rw [keys_setS]
  exact hwf

theorem wf_reachable {ds : List ServiceDescriptor} {σ : OrchState}
    (h : Reachable ds σ) : WF ds σ := by
  induction h with
  | refl => exact wf_init ds
  | tail _ hstep ih =>
    obtain ⟨a, ha⟩ := hstep
    exact wf_apply ih ha

/-! ### Monotonicity of edge satisfaction and the safety invariant -/

theorem setS_not_mem {σ : OrchState} {x : String} (v : SState)
    (h : x ∉ σ.map Prod.fst) : setS σ x v = σ := by
  induction σ with
  | nil => rfl
  | cons p rest ih =>
    simp only [List.map_cons, List.mem_cons, not_or] at h
    rw [setS_cons]
    have hb : (p.fst == x) = false := by simp [Ne.symm h.1]
    rw [hb]
    simp only [Bool.false_eq_true, if_false]
    rw [ih h.2]

/-- Facts about a per-service record that can only grow along a run:
whether it was launched, whether it was ever healthy, and the terminal
statuses `Completed` and `Failed`. -/
def stateLe (a b : SState) : Prop :=
  (a.launched = true → b.launched = true) ∧
  (a.everHealthy = true → b.everHealthy = true) ∧
  (a.status = Status.completed → b.status = Status.completed) ∧
  (a.status = Status.failed → b.status = Status.failed)

theorem stateLe_refl (a : SState) : stateLe a a :=
  ⟨id, id, id, id⟩

theorem setS_mono {σ : OrchState} {x : String} {v : SState}
    (hle : stateLe (getS σ x) v) :
    ∀ t, stateLe (getS σ t) (getS (setS σ x v) t) := by
  intro t
  by_cases hm : x ∈ σ.map Prod.fst
  · by_cases ht : t = x
    · subst ht
      rw [getS_setS_self v hm]
      exact hle
    · rw [getS_setS_ne v ht]
      exact stateLe_refl _
  · rw [setS_not_mem v hm]
    exact stateLe_refl _

theorem status_ne {a b c : Status} (h : a = b) (hbc : b ≠ c) : a ≠ c :=
  fun hc => hbc (h ▸ hc)

/-- Detailed case analysis of one orchestrator action: the updated record
only grows in the `stateLe` sense, and the action is either a launch (whose
guard certifies that every dependency edge was satisfied) or a non-launch
action (which preserves the `launched` flag and either marks the service
`Failed` or acts on an already-launched status). -/
theorem applyAct_cases {ds : List ServiceDescriptor} {σ σ' : OrchState} {a : Act}
    (h : applyAct ds σ a = some σ') :
    ∃ x v, σ' = setS σ x v ∧ stateLe (getS σ x) v ∧
      ((v.launched = true ∧ (getS σ x).status = Status.pending ∧
        ∃ d, lookupSvc ds x = some d ∧ ∀ e ∈ d.edges, edgeSatB σ e = true)
       ∨ (v.launched = (getS σ x).launched ∧
          (v.status = Status.failed ∨
           ((getS σ x).status ≠ Status.pending ∧ (getS σ x).status ≠ Status.failed)))) := by
  cases a with
  | launch s =>
    cases hl : lookupSvc ds s with
    | none => simp [applyAct, hl] at h
    | some d =>
      simp only [applyAct, hl] at h
      by_cases hg : launchGuard d σ
      · simp only [hg, if_true, Option.some.injEq] at h
        have hn := lookup_name hl
        rw [launchGuard, Bool.and_eq_true, beq_iff_eq, hn] at hg
        refine ⟨s, _, h.symm,
          ⟨fun _ => rfl, fun hh => hh,
           fun hc => absurd hc (status_ne hg.1 (by decide)),
           fun hc => absurd hc (status_ne hg.1 (by decide))⟩,
          Or.inl ⟨rfl, hg.1, d, hl, fun e he => List.all_eq_true.mp hg.2 e he⟩⟩
      · simp [hg] at h
  | start s =>
    cases hl : lookupSvc ds s with
    | none => simp [applyAct, hl] at h
    | some d =>
      simp only [applyAct, hl] at h
      by_cases hg : (getS σ s).status == Status.launching
      · simp only [hg, if_true, Option.some.injEq] at h
        rw [beq_iff_eq] at hg
        refine ⟨s, _, h.symm,
          ⟨fun hh => hh, fun hh => by simp [hh],
           fun hc => absurd hc (status_ne hg (by decide)),
           fun hc => absurd hc (status_ne hg (by decide))⟩,
          Or.inr ⟨rfl, Or.inr ⟨status_ne hg (by decide), status_ne hg (by decide)⟩⟩⟩
      · simp [hg] at h
  | healthyTr s =>
    cases hl : lookupSvc ds s with
    | none => simp [applyAct, hl] at h
    | some d =>
      simp only [applyAct, hl] at h
      by_cases hg : d.healthcheck.isSome &&
          ((getS σ s).status == Status.running || (getS σ s).status == Status.unhealthy)
      · simp only [hg, if_true, Option.some.injEq] at h
        rw [Bool.and_eq_true, Bool.or_eq_true, beq_iff_eq, beq_iff_eq] at hg
        rcases hg.2 with hr | hr
        all_goals
          refine ⟨s, _, h.symm,
            ⟨fun hh => hh, fun _ => rfl,
             fun hc => absurd hc (status_ne hr (by decide)),
             fun hc => absurd hc (status_ne hr (by decide))⟩,
            Or.inr ⟨rfl, Or.inr ⟨status_ne hr (by decide), status_ne hr (by decide)⟩⟩⟩
      · simp [hg] at h
  | unhealthyTr s =>
    simp only [applyAct] at h
    by_cases hg : (getS σ s).status == Status.healthy
    · simp only [hg, if_true, Option.some.injEq] at h
      rw [beq_iff_eq] at hg
      refine ⟨s, _, h.symm,
        ⟨fun hh => hh, fun hh => hh,
         fun hc => absurd hc (status_ne hg (by decide)),
         fun hc => absurd hc (status_ne hg (by decide))⟩,
        Or.inr ⟨rfl, Or.inr ⟨status_ne hg (by decide), status_ne hg (by decide)⟩⟩⟩
    · simp [hg] at h
  | complete s =>
    simp only [applyAct] at h
    by_cases hg : (getS σ s).status == Status.running
    · simp only [hg, if_true, Option.some.injEq] at h
      rw [beq_iff_eq] at hg
      refine ⟨s, _, h.symm,
        ⟨fun hh => hh, fun hh => hh, fun _ => rfl,
         fun hc => absurd hc (status_ne hg (by decide))⟩,
        Or.inr ⟨rfl, Or.inr ⟨status_ne hg (by decide), status_ne hg (by decide)⟩⟩⟩
    · simp [hg] at h
  | failProc s =>
    simp only [applyAct] at h
    by_cases hg : (getS σ s).status == Status.launching || (getS σ s).status == Status.running ||
        (getS σ s).status == Status.healthy || (getS σ s).status == Status.unhealthy
    · simp only [hg, if_true, Option.some.injEq] at h
      simp only [Bool.or_eq_true, beq_iff_eq] at hg
      rcases hg with ((hr | hr) | hr) | hr
      all_goals
        refine ⟨s, _, h.symm,
          ⟨fun hh => hh, fun hh => hh,
           fun hc => absurd hc (status_ne hr (by decide)), fun _ => rfl⟩,
          Or.inr ⟨rfl, Or.inl rfl⟩⟩
    · simp [hg] at h
  | block s =>
    cases hl : lookupSvc ds s with
    | none => simp [applyAct, hl] at h
    | some d =>
      simp only [applyAct, hl] at h
      by_cases hg : blockGuard d σ
      · simp only [hg, if_true, Option.some.injEq] at h
        have hn := lookup_name hl
        rw [blockGuard, Bool.and_eq_true, beq_iff_eq, hn] at hg
        refine ⟨s, _, h.symm,
          ⟨fun hh => hh, fun hh => hh,
           fun hc => absurd hc (status_ne hg.1 (by decide)), fun _ => rfl⟩,
          Or.inr ⟨rfl, Or.inl rfl⟩⟩
      · simp [hg] at h

theorem applyAct_mono {ds : List ServiceDescriptor} {σ σ' : OrchState} {a : Act}
    (h : applyAct ds σ a = some σ') :
    ∀ t, stateLe (getS σ t) (getS σ' t) := by
  obtain ⟨x, v, rfl, hle, _⟩ := applyAct_cases h
  exact setS_mono hle

/-- Edge satisfaction is stable: once an edge condition is satisfied it
stays satisfied for the rest of the run. -/
theorem edgeSat_mono {σ σ' : OrchState}
    (hmono : ∀ t, stateLe (getS σ t) (getS σ' t)) :
    ∀ e, edgeSatB σ e = true → edgeSatB σ' e = true := by
  intro e he
  cases hc : e.cond with
  | started =>
    rw [edgeSatB, hc] at he ⊢
    exact (hmono e.target).1 he
  | healthy =>
    rw [edgeSatB, hc] at he ⊢
    exact (hmono e.target).2.1 he
  | completedSuccessfully =>
    rw [edgeSatB, hc, beq_iff_eq] at he ⊢
    exact (hmono e.target).2.2.1 he

/-- The central safety invariant of the Readiness Orchestrator: a launched
service has all its dependency edges satisfied (stability makes the
launch-time check persistent), and an unlaunched service can only be
`Pending` or `Failed` (blocked). -/
def OrchInv (ds : List ServiceDescriptor) (σ : OrchState) : Prop :=
  ∀ s d, lookupSvc ds s = some d →
    ((getS σ s).launched = true → ∀ e ∈ d.edges, edgeSatB σ e = true) ∧
    ((getS σ s).launched = false →
      (getS σ s).status = Status.pending ∨ (getS σ s).status = Status.failed)

theorem getS_init (ds : List ServiceDescriptor) (s : String) :
    getS (initState ds) s = initSState := by
  induction ds with
  | nil => rfl
  | cons d rest ih =>
    show getS ((d.name, initSState) :: initState rest) s = initSState
    rw [getS_cons]
    by_cases h : d.name = s
    · simp [h]
    · have hb : (d.name == s) = false := by simp [h]
      rw [hb]
      simp only [Bool.false_eq_true, if_false]
      exact ih

theorem inv_init (ds : List ServiceDescriptor) : OrchInv ds (initState ds) := by
  intro s d _
  rw [getS_init]
  exact ⟨fun hc => (Bool.false_ne_true hc).elim, fun _ => Or.inl rfl⟩

theorem inv_apply {ds : List ServiceDescriptor} {σ σ' : OrchState} {a : Act}
    (hinv : OrchInv ds σ) (h : applyAct ds σ a = some σ') : OrchInv ds σ' := by
  have hmono := applyAct_mono h
  obtain ⟨x, v, hσ', hle, hcase⟩ := applyAct_cases h
  subst hσ'
  intro s d hd
  by_cases hm : x ∈ σ.map Prod.fst
  · by_cases hs : s = x
    · subst hs
      rw [getS_setS_self v hm]
      rcases hcase with ⟨hvl, _, d0, hd0, hsat⟩ | ⟨hsame, hrest⟩
      · have hdd : d0 = d := by
          rw [hd0] at hd
          injection hd
        subst hdd
        constructor
        · intro _ e he
          exact edgeSat_mono hmono e (hsat e he)
        · intro hfl
          rw [hvl] at hfl
          cases hfl
      · constructor
        · intro hvl
          have hol : (getS σ s).launched = true := by rw [← hsame]; exact hvl
          intro e he
          exact edgeSat_mono hmono e ((hinv s d hd).1 hol e he)
        · intro hvl
          rcases hrest with hf | ⟨hnp, hnf⟩
          · exact Or.inr hf
          · have hol : (getS σ s).launched = false := by rw [← hsame]; exact hvl
            rcases (hinv s d hd).2 hol with hp | hf
            · exact absurd hp hnp
            · exact absurd hf hnf
    · rw [getS_setS_ne v hs]
      constructor
      · intro hl e he
        exact edgeSat_mono hmono e ((hinv s d hd).1 hl e he)
      · exact (hinv s d hd).2
  · rw [setS_not_mem v hm]
    exact hinv s d hd

theorem inv_reachable {ds : List ServiceDescriptor} {σ : OrchState}
    (h : Reachable ds σ) : OrchInv ds σ := by
  induction h with
  | refl => exact inv_init ds
  | tail _ hstep ih =>
    obtain ⟨a, ha⟩ := hstep
    exact inv_apply ih ha

/-! ### Dependency-graph validation, modelled from the spec -/

/-- Errors of dependency-graph validation: a dependency cycle (naming the
services involved) or an edge to an undeclared service (naming the missing
target). -/
inductive GraphError where
  | cycleError (services : List String)
  | unknownServiceError (missing : String)
deriving DecidableEq, Repr

instance : DecidableEq (Except GraphError (List String)) := fun a b =>
  match a, b with
  | Except.ok x, Except.ok y =>
    if h : x = y then isTrue (by rw [h]) else isFalse (by intro hh; cases hh; exact h rfl)
  | Except.error x, Except.error y =>
    if h : x = y then isTrue (by rw [h]) else isFalse (by intro hh; cases hh; exact h rfl)
  | Except.ok _, Except.error _ => isFalse (by intro hh; cases hh)
  | Except.error _, Except.ok _ => isFalse (by intro hh; cases hh)

/-- First dependency-edge target that is not a declared service, if any. -/
def findUnknown (ds : List ServiceDescriptor) : Option String :=
  ds.findSome? (fun d => d.edges.findSome?
    (fun e => if (svcNames ds).contains e.target then none else some e.target))

/-- First service of `rem` all of whose dependency-edge targets are already
placed. -/
def pickReady (rem : List ServiceDescriptor) (placed : List String) :
    Option ServiceDescriptor :=
  rem.find? (fun d => d.edges.all (fun e => placed.contains e.target))

def removeName (rem : List ServiceDescriptor) (n : String) : List ServiceDescriptor :=
  rem.filter (fun d => !(d.name == n))

/-- Modelled from the spec: topological validation by repeated placement -
place a service once all its dependency-edge targets are placed; if no
service can be placed and some remain, those remaining services form or
depend into a dependency cycle, reported as a `CycleError` naming them. -/
def kahn : Nat → List ServiceDescriptor → List String → Except GraphError (List String)
  | 0, rem, placed =>
    if rem.isEmpty then Except.ok placed
    else Except.error (GraphError.cycleError (svcNames rem))
  | Nat.succ fuel, rem, placed =>
    match pickReady rem placed with
    | some d => kahn fuel (removeName rem d.name) (placed ++ [d.name])
    | none =>
      if rem.isEmpty then Except.ok placed
      else Except.error (GraphError.cycleError (svcNames rem))

/-- Modelled from the spec: `build(descriptors) -> Graph | GraphError`.
Detects dangling edges (`UnknownServiceError` naming the missing target)
and cycles (`CycleError` naming the services involved); on success the
graph is summarized by a dependency-respecting launch order. -/
def build (ds : List ServiceDescriptor) : Except GraphError (List String) :=
  match findUnknown ds with
  | some t => Except.error (GraphError.unknownServiceError t)
  | none => kahn ds.length ds []

/-- A chain of dependency edges `a → x1 → ... → xn → b`. -/
def edgeChain (ds : List ServiceDescriptor) : String → List String → String → Prop
  | a, [], b => edgeB ds a b = true
  | a, x :: xs, b => edgeB ds a x = true ∧ edgeChain ds x xs b

def edgeChainDec (ds : List ServiceDescriptor) :
    (a : String) → (l : List String) → (b : String) → Decidable (edgeChain ds a l b)
  | a, [], b => inferInstanceAs (Decidable (edgeB ds a b = true))
  | a, x :: xs, b =>
    haveI := edgeChainDec ds x xs b
    inferInstanceAs (Decidable (edgeB ds a x = true ∧ edgeChain ds x xs b))

instance (ds : List ServiceDescriptor) (a : String) (l : List String) (b : String) :
    Decidable (edgeChain ds a l b) :=
  edgeChainDec ds a l b

/-- The descriptors contain a dependency cycle: some nonempty closed chain
of dependency edges. -/
def cyclic (ds : List ServiceDescriptor) : Prop :=
  ∃ a l, edgeChain ds a l a

/-- Modelled from the spec: a `GraphError` is fatal and aborts the
orchestration before any service is launched, so an orchestration run only
exists over a successfully built graph. -/
def OrchRun (ds : List ServiceDescriptor) (σ : OrchState) : Prop :=
  (build ds).isOk = true ∧ Reachable ds σ

/-- `a` occurs strictly before `b` in the list `l`. -/
def Precedes (l : List String) (a b : String) : Prop :=
  ∃ l1 l2 l3, l = l1 ++ a :: l2 ++ b :: l3

/-- Modelled from the spec: on an explicit stop request, still-running
services are signaled to stop in reverse-dependency order - the reverse of
the dependency-respecting launch order. -/
def stopOrder (ord : List String) : List String :=
  ord.reverse

/-! ### Health Prober, modelled from the spec -/

/-- Edge-triggering events emitted by the Health Prober. -/
inductive HEvent where
  | healthyT
  | unhealthyT
  | failedT
deriving DecidableEq, Repr

/-- Prober-visible runtime state: current status and the
consecutive-failure counter. -/
structure ProbeState where
  status : Status
  failures : Nat
deriving DecidableEq, Repr

/-- Result of one probe cycle: updated state, emitted transition events,
and whether probing continues. -/
structure ProbeResult where
  state : ProbeState
  events : List HEvent
  keep : Bool
deriving DecidableEq, Repr

/-- Modelled from the spec (Health Prober algorithm): on success reset the
consecutive-failure counter and emit `Healthy` only if the previous status
was not `Healthy`; on failure inside the `startPeriod` grace window, ignore
it entirely; on failure after the grace window increment the counter, and
when it reaches `retries` emit `Unhealthy` and keep probing - unless the
process has exited, in which case probing stops and the service is marked
`Failed`.  `t` is the time since the service started. -/
def probeStep (hc : HealthCheckSpec) (st : ProbeState) (t : Nat) (ok exited : Bool) :
    ProbeResult :=
  if ok then
    { state := { status := Status.healthy, failures := 0 }
      events := if st.status == Status.healthy then [] else [HEvent.healthyT]
      keep := true }
  else if t < hc.startPeriod then
    { state := st, events := [], keep := true }
  else if st.failures + 1 < hc.retries then
    { state := { status := st.status, failures := st.failures + 1 }
      events := [], keep := true }
  else if exited then
    { state := { status := Status.failed, failures := st.failures + 1 }
      events := [HEvent.failedT], keep := false }
  else
    { state := { status := Status.unhealthy, failures := st.failures + 1 }
      events := if st.status == Status.unhealthy then [] else [HEvent.unhealthyT]
      keep := true }

/-- Modelled from the spec: a probe outcome - the probe must report success
and finish within `timeout`; exceeding the timeout counts as a failure. -/
def probeOutcome (duration tmo : Nat) (result : Bool) : Bool :=
  result && decide (duration ≤ tmo)

/-- Modelled from the spec: probe `n` executes at `startPeriod + n * interval`
- the prober waits `startPeriod` before the first probe and then probes
every `interval`. -/
def probeTime (hc : HealthCheckSpec) (n : Nat) : Nat :=
  hc.startPeriod + n * hc.interval

/-! ### Failure propagation and run reporting, modelled from the spec -/

/-- No scheduling decision is outstanding: no `Pending` service can be
launched and none can be blocked.  Health transitions of long-running
services may continue, but the scheduler is done. -/
def schedQuiet (ds : List ServiceDescriptor) (σ : OrchState) : Bool :=
  ds.all (fun d => !(launchGuard d σ) && !(blockGuard d σ))

/-- Service `s` has a dependency edge on `t` that is not satisfied in `σ`. -/
def unsatEdge (ds : List ServiceDescriptor) (σ : OrchState) (s t : String) : Prop :=
  ∃ d e, lookupSvc ds s = some d ∧ e ∈ d.edges ∧ e.target = t ∧ edgeSatB σ e = false

/-- `s` is a transitive dependent of `t` through a chain of dependency
edges none of which is satisfied in `σ`. -/
inductive BlockChain (ds : List ServiceDescriptor) (σ : OrchState) : String → String → Prop
  | direct {s t : String} : unsatEdge ds σ s t → BlockChain ds σ s t
  | step {s m t : String} : unsatEdge ds σ s m → BlockChain ds σ m t → BlockChain ds σ s t

/-- Modelled from the spec: the run result reports the services that
reached `Failed`. -/
def reportFailed (ds : List ServiceDescriptor) (σ : OrchState) : List String :=
  (ds.filter (fun d => (getS σ d.name).status == Status.failed)).map (fun d => d.name)

/-- Modelled from the spec: the run result reports the blocked set - the
services marked `Failed` without ever being launched. -/
def reportBlocked (ds : List ServiceDescriptor) (σ : OrchState) : List String :=
  (ds.filter (fun d =>
    ((getS σ d.name).status == Status.failed) && !((getS σ d.name).launched))).map
    (fun d => d.name)

/-! ### Concrete runs over the compose store -/

/-- A complete startup run of the compose environment: every service
launches, the one-shot init services complete, the health-checked services
become healthy. -/
def fullRunActs : List Act :=
  [ Act.launch nMongodb, Act.start nMongodb
  , Act.launch nMongoInit, Act.start nMongoInit, Act.complete nMongoInit
  , Act.launch nVectorSearch, Act.start nVectorSearch, Act.healthyTr nVectorSearch
  , Act.launch nVsInit, Act.start nVsInit, Act.complete nVsInit
  , Act.launch nCdc, Act.start nCdc, Act.healthyTr nCdc
  , Act.launch nCdcInit, Act.start nCdcInit, Act.complete nCdcInit
  , Act.launch nDaskScheduler, Act.start nDaskScheduler
  , Act.launch nDaskWorker, Act.start nDaskWorker
  , Act.launch nLoki, Act.launch nGrafana, Act.launch nPromtail
  , Act.launch nPrometheus, Act.launch nCadvisor
  , Act.launch nDemo ]

def fullState : OrchState :=
  (runActs composeDs (initState composeDs) fullRunActs).getD (initState composeDs)

theorem fullState_reachable : Reachable composeDs fullState := by
  apply runActs_reachable composeDs fullRunActs (initState composeDs) fullState
    Relation.ReflTransGen.refl
  decide

/-- A run in which the one-shot `mongo-init` fails after starting; every
transitive dependent reachable through unsatisfied edges is blocked, and
the independent observability services still launch. -/
def blockedRunActs : List Act :=
  [ Act.launch nMongodb, Act.start nMongodb
  , Act.launch nMongoInit, Act.start nMongoInit, Act.failProc nMongoInit
  , Act.block nVectorSearch, Act.block nCdc, Act.block nDaskScheduler
  , Act.block nVsInit, Act.block nCdcInit, Act.block nDaskWorker, Act.block nDemo
  , Act.launch nLoki, Act.launch nGrafana, Act.launch nPromtail
  , Act.launch nPrometheus, Act.launch nCadvisor ]

def blockedState : OrchState :=
  (runActs composeDs (initState composeDs) blockedRunActs).getD (initState composeDs)

theorem blockedState_reachable : Reachable composeDs blockedState := by
  apply runActs_reachable composeDs blockedRunActs (initState composeDs) blockedState
    Relation.ReflTransGen.refl
  decide

/-- A run in which `dask-scheduler` fails only after its dependent
`dask-worker` was already launched over a satisfied `Started` edge. -/
def failLateActs : List Act :=
  [ Act.launch nMongodb, Act.start nMongodb
  , Act.launch nMongoInit, Act.start nMongoInit, Act.complete nMongoInit
  , Act.launch nDaskScheduler, Act.launch nDaskWorker
  , Act.start nDaskScheduler, Act.failProc nDaskScheduler ]

def failLateState : OrchState :=
  (runActs composeDs (initState composeDs) failLateActs).getD (initState composeDs)

theorem failLateState_reachable : Reachable composeDs failLateState := by
  apply runActs_reachable composeDs failLateActs (initState composeDs) failLateState
    Relation.ReflTransGen.refl
  decide

/-- A run launching `mongo-init` while `mongodb` is still only `Launching`:
the edge between them is a `started` edge, so no health of `mongodb` is
required. -/
def earlyInitActs : List Act :=
  [ Act.launch nMongodb, Act.launch nMongoInit ]

def earlyInitState : OrchState :=
  (runActs composeDs (initState composeDs) earlyInitActs).getD (initState composeDs)

theorem earlyInitState_reachable : Reachable composeDs earlyInitState := by
  apply runActs_reachable composeDs earlyInitActs (initState composeDs) earlyInitState
    Relation.ReflTransGen.refl
  decide

/-! ### Auxiliary descriptor stores -/

def nA : String := "A"
def nB : String := "B"
def nGhost : String := "ghost"
def nDb : String := "db"
def nInitSvc : String := "init"
def nSvc : String := "svc"

/-- A two-service store with the dependency cycle `A → B → A`. -/
def abCycleDs : List ServiceDescriptor :=
  [ { name := nA, command := none
      edges := [{ target := nB, cond := Condition.started }], healthcheck := none }
  , { name := nB, command := none
      edges := [{ target := nA, cond := Condition.started }], healthcheck := none } ]

/-- A store with an edge to the undeclared service `ghost`. -/
def ghostDs : List ServiceDescriptor :=
  [ { name := nA, command := none
      edges := [{ target := nGhost, cond := Condition.started }], healthcheck := none } ]

/-- Modelled from the spec: the §8 end-to-end scenario health check for
`svc` - `retries` 3 and `interval` 1 are given; `timeout` and
`startPeriod` are unspecified there and taken as 1 and 0. -/
def scenarioHC : HealthCheckSpec :=
  { test := "probe svc", interval := 1, timeout := 1, retries := 3, startPeriod := 0 }

/- Modelled from the spec: the §8 end-to-end scenario store - `db` with no
dependencies, `init` depending on `db` with condition `healthy` (a one-shot
that exits successfully), `svc` depending on `init` with condition
`completed_successfully` and declaring a health check. -/

def dbD : ServiceDescriptor :=
  { name := nDb, command := none, edges := [], healthcheck := none }

def initD : ServiceDescriptor :=
  { name := nInitSvc, command := none
    edges := [{ target := nDb, cond := Condition.healthy }], healthcheck := none }

def svcD : ServiceDescriptor :=
  { name := nSvc, command := none
    edges := [{ target := nInitSvc, cond := Condition.completedSuccessfully }]
    healthcheck := some scenarioHC }

/-- Modelled from the spec: the §8 end-to-end scenario store. -/
def scenarioDs : List ServiceDescriptor :=
  [dbD, initD, svcD]

/-- A complete run of the §8 scenario: `db` launches and starts, `init`
launches once `db` satisfies `Healthy` edges, `svc` launches once `init`
has completed. -/
def scenarioRunActs : List Act :=
  [ Act.launch nDb, Act.start nDb
  , Act.launch nInitSvc, Act.start nInitSvc, Act.complete nInitSvc
  , Act.launch nSvc ]

def scenarioState : OrchState :=
  (runActs scenarioDs (initState scenarioDs) scenarioRunActs).getD (initState scenarioDs)

theorem scenarioState_reachable : Reachable scenarioDs scenarioState := by
  apply runActs_reachable scenarioDs scenarioRunActs (initState scenarioDs) scenarioState
    Relation.ReflTransGen.refl
  decide

/-- The dependency-respecting launch order computed by `build` on the
compose store. -/
def composeOrder : List String :=
  [ nMongodb, nMongoInit, nVectorSearch, nVsInit, nCdc, nCdcInit
  , nDaskScheduler, nDaskWorker, nLoki, nGrafana, nPromtail, nPrometheus
  , nCadvisor, nDemo ]

/-! ### Correctness of the topological placement -/

theorem Precedes_append_right {l : List String} {a b : String}
    (h : Precedes l a b) (l4 : List String) : Precedes (l ++ l4) a b := by
  obtain ⟨l1, l2, l3, rfl⟩ := h
  exact ⟨l1, l2, l3 ++ l4, by simp⟩

theorem Precedes_snoc_of_mem {l : List String} {b : String}
    (hb : b ∈ l) (a : String) : Precedes (l ++ [a]) b a := by
  obtain ⟨p1, p2, rfl⟩ := List.append_of_mem hb
  exact ⟨p1, p2, [], by simp⟩

theorem Precedes_reverse {l : List String} {a b : String}
    (h : Precedes l a b) : Precedes l.reverse b a := by
  obtain ⟨l1, l2, l3, rfl⟩ := h
  refine ⟨l3.reverse, l2.reverse, l1.reverse, ?_⟩
  simp

theorem names_removeName (rem : List ServiceDescriptor) (n : String) :
    svcNames (removeName rem n) = (svcNames rem).filter (fun x => !(x == n)) := by
  induction rem with
  | nil => rfl
  | cons d rest ih =>
    cases hb : d.name == n with
    | true =>
      simp only [removeName, svcNames, List.filter_cons, List.map_cons, hb] at ih ⊢
      simpa using ih
    | false =>
      simp only [removeName, svcNames, List.filter_cons, List.map_cons, hb] at ih ⊢
      simpa using ih

theorem kahn_ok_prec {ds : List ServiceDescriptor} (hnd : (svcNames ds).Nodup) :
    ∀ (fuel : Nat) (rem : List ServiceDescriptor) (placed ord : List String),
      (∀ x ∈ rem, x ∈ ds) →
      (placed ++ svcNames rem).Perm (svcNames ds) →
      (∀ s d, s ∈ placed → lookupSvc ds s = some d →
        ∀ e ∈ d.edges, Precedes placed e.target s) →
      kahn fuel rem placed = Except.ok ord →
      (∀ s d, lookupSvc ds s = some d → ∀ e ∈ d.edges, Precedes ord e.target s) ∧
      ord.Perm (svcNames ds) := by
  intro fuel
  induction fuel with
  | zero =>
    intro rem placed ord hrem hperm hplaced hk
    simp only [kahn] at hk
    by_cases he : rem.isEmpty
    · simp only [he, if_true, Except.ok.injEq] at hk
      have hre : rem = [] := List.isEmpty_iff.mp he
      subst hre
      have hperm2 : placed.Perm (svcNames ds) := by simpa [svcNames] using hperm
      refine ⟨?_, hk ▸ hperm2⟩
      intro s d hd e he'
      rw [← hk]
      exact hplaced s d (hperm2.mem_iff.mpr (mem_names_of_lookup hd)) hd e he'
    · simp [he] at hk
  | succ fuel ih =>
    intro rem placed ord hrem hperm hplaced hk
    simp only [kahn] at hk
    cases hp : pickReady rem placed with
    | none =>
      rw [hp] at hk
      by_cases he : rem.isEmpty
      · simp only [he, if_true, Except.ok.injEq] at hk
        have hre : rem = [] := List.isEmpty_iff.mp he
        subst hre
        have hperm2 : placed.Perm (svcNames ds) := by simpa [svcNames] using hperm
        refine ⟨?_, hk ▸ hperm2⟩
        intro s d hd e he'
        rw [← hk]
        exact hplaced s d (hperm2.mem_iff.mpr (mem_names_of_lookup hd)) hd e he'
      · simp [he] at hk
    | some d =>
      rw [hp] at hk
      rw [pickReady] at hp
      have hdrem : d ∈ rem := List.mem_of_find?_eq_some hp
      have hdds : d ∈ ds := hrem d hdrem
      have hready0 := List.find?_some hp
      have hready : d.edges.all (fun e => placed.contains e.target) = true := hready0
      have hlook : lookupSvc ds d.name = some d := lookup_of_mem hnd hdds
      have hndp : (placed ++ svcNames rem).Nodup := hperm.symm.nodup hnd
      have hndr : (svcNames rem).Nodup := hndp.of_append_right
      have hnr : svcNames (removeName rem d.name) =
          (svcNames rem).filter (fun x => !(x == d.name)) := names_removeName rem d.name
      have hmemn : d.name ∈ svcNames rem := List.mem_map_of_mem (fun d => d.name) hdrem
      have hpermr : (svcNames rem).Perm (d.name :: svcNames (removeName rem d.name)) := by
        rw [hnr]
        have h1 := List.perm_cons_erase hmemn
        have h2 : (svcNames rem).erase d.name =
            (svcNames rem).filter (fun x => !(x == d.name)) :=
          hndr.erase_eq_filter d.name
        rw [h2] at h1
        exact h1
      have hperm' : ((placed ++ [d.name]) ++ svcNames (removeName rem d.name)).Perm
          (svcNames ds) := by
        have heq : (placed ++ [d.name]) ++ svcNames (removeName rem d.name) =
            placed ++ (d.name :: svcNames (removeName rem d.name)) := by simp
        rw [heq]
        exact ((hpermr.symm.append_left placed).trans hperm)
      have hplaced' : ∀ s d', s ∈ placed ++ [d.name] → lookupSvc ds s = some d' →
          ∀ e ∈ d'.edges, Precedes (placed ++ [d.name]) e.target s := by
        intro s d' hs hld' e he'
        rcases List.mem_append.mp hs with hs | hs
        · exact Precedes_append_right (hplaced s d' hs hld' e he') [d.name]
        · have hsd : s = d.name := by simpa using hs
          subst hsd
          have hdd : d' = d := by
            rw [hlook] at hld'
            injection hld' with hh
            exact hh.symm
          have he2 : e ∈ d.edges := hdd ▸ he'
          have hcm : placed.contains e.target = true := List.all_eq_true.mp hready e he2
          have hmem : e.target ∈ placed := by
            simpa using hcm
          exact Precedes_snoc_of_mem hmem d.name
      have hrem' : ∀ x ∈ removeName rem d.name, x ∈ ds :=
        fun x hx => hrem x (List.mem_of_mem_filter hx)
      exact ih (removeName rem d.name) (placed ++ [d.name]) ord hrem' hperm' hplaced' hk

/-- A successfully built graph yields a launch order in which every
dependency-edge target precedes its dependent, covering all services. -/
theorem build_ok_prec {ds : List ServiceDescriptor} {ord : List String}
    (hnd : (svcNames ds).Nodup) (hb : build ds = Except.ok ord) :
    (∀ s d, lookupSvc ds s = some d → ∀ e ∈ d.edges, Precedes ord e.target s) ∧
    ord.Perm (svcNames ds) := by
  unfold build at hb
  cases hf : findUnknown ds with
  | some t => rw [hf] at hb; cases hb
  | none =>
    rw [hf] at hb
    exact kahn_ok_prec hnd ds.length ds [] ord (fun x hx => hx) (by simp)
      (fun s d' hs => absurd hs (List.not_mem_nil s)) hb

/-! ### Cycles cause and explain build errors -/

theorem chain_snoc {ds : List ServiceDescriptor} :
    ∀ {a : String} (l : List String) {b c : String},
      edgeChain ds a l b → edgeB ds b c = true → edgeChain ds a (l ++ [b]) c := by
  intro a l
  induction l generalizing a with
  | nil =>
    intro b c h1 h2
    exact ⟨h1, h2⟩
  | cons x xs ihl =>
    intro b c h1 h2
    exact ⟨h1.1, ihl h1.2 h2⟩

theorem chain_allOut {ds : List ServiceDescriptor} :
    ∀ {a b : String} (l : List String), edgeChain ds a l b →
      ∀ c ∈ a :: l, ∃ c', c' ∈ (a :: l) ++ [b] ∧ edgeB ds c c' = true := by
  intro a b l
  induction l generalizing a with
  | nil =>
    intro h c hc
    have hca : c = a := by simpa using hc
    subst hca
    exact ⟨b, by simp, h⟩
  | cons x xs ihl =>
    intro h c hc
    rcases List.mem_cons.mp hc with hc | hc
    · subst hc
      exact ⟨x, by simp, h.1⟩
    · obtain ⟨c', hc1, hc2⟩ := ihl h.2 c hc
      refine ⟨c', ?_, hc2⟩
      simp only [List.mem_append, List.mem_cons] at hc1 ⊢
      tauto

theorem cyclic_allOut {ds : List ServiceDescriptor} (h : cyclic ds) :
    ∃ C : List String, C ≠ [] ∧ ∀ c ∈ C, ∃ c', c' ∈ C ∧ edgeB ds c c' = true := by
  obtain ⟨a, l, hch⟩ := h
  refine ⟨a :: l, by simp, ?_⟩
  intro c hc
  obtain ⟨c', hc1, hc2⟩ := chain_allOut l hch c hc
  refine ⟨c', ?_, hc2⟩
  rcases List.mem_append.mp hc1 with h1 | h1
  · exact h1
  · have : c' = a := by simpa using h1
    subst this
    exact List.mem_cons_self _ _

theorem kahn_stuck_of_allOut {ds : List ServiceDescriptor} (hnd : (svcNames ds).Nodup)
    (C : List String) (hCne : C ≠ [])
    (hout : ∀ c ∈ C, ∃ c', c' ∈ C ∧ edgeB ds c c' = true) :
    ∀ (fuel : Nat) (rem : List ServiceDescriptor) (placed : List String),
      (∀ x ∈ rem, x ∈ ds) →
      (∀ c ∈ C, c ∈ svcNames rem) →
      (∀ c ∈ C, c ∉ placed) →
      ∃ err, kahn fuel rem placed = Except.error err := by
  intro fuel
  induction fuel with
  | zero =>
    intro rem placed hrem hCrem hCpl
    obtain ⟨c, hc⟩ := List.exists_mem_of_ne_nil C hCne
    have hPmem : c ∈ svcNames rem := hCrem c hc
    have hrne : rem.isEmpty = false := by
      cases hre : rem.isEmpty
      · rfl
      · rw [List.isEmpty_iff] at hre
        subst hre
        simp [svcNames] at hPmem
    exact ⟨GraphError.cycleError (svcNames rem), by simp [kahn, hrne]⟩
  | succ fuel ih =>
    intro rem placed hrem hCrem hCpl
    cases hp : pickReady rem placed with
    | none =>
      obtain ⟨c, hc⟩ := List.exists_mem_of_ne_nil C hCne
      have hPmem : c ∈ svcNames rem := hCrem c hc
      have hrne : rem.isEmpty = false := by
        cases hre : rem.isEmpty
        · rfl
        · rw [List.isEmpty_iff] at hre
          subst hre
          simp [svcNames] at hPmem
      exact ⟨GraphError.cycleError (svcNames rem), by simp [kahn, hp, hrne]⟩
    | some d =>
      have hp2 := hp
      rw [pickReady] at hp2
      have hdrem : d ∈ rem := List.mem_of_find?_eq_some hp2
      have hready0 := List.find?_some hp2
      have hready : d.edges.all (fun e => placed.contains e.target) = true := hready0
      have hdnc : d.name ∉ C := by
        intro hdc
        obtain ⟨c', hc'C, hc'e⟩ := hout d.name hdc
        have hlook : lookupSvc ds d.name = some d := lookup_of_mem hnd (hrem d hdrem)
        rw [edgeB, hlook] at hc'e
        obtain ⟨e, hee, het⟩ := List.any_eq_true.mp hc'e
        have hcont : placed.contains e.target = true := List.all_eq_true.mp hready e hee
        have hmem : e.target ∈ placed := by simpa using hcont
        rw [beq_iff_eq] at het
        exact hCpl c' hc'C (het ▸ hmem)
      have hCrem' : ∀ c ∈ C, c ∈ svcNames (removeName rem d.name) := by
        intro c hc
        rw [names_removeName]
        rw [List.mem_filter]
        refine ⟨hCrem c hc, ?_⟩
        have : c ≠ d.name := fun hh => hdnc (hh ▸ hc)
        simp [this]
      have hCpl' : ∀ c ∈ C, c ∉ placed ++ [d.name] := by
        intro c hc hmem
        rcases List.mem_append.mp hmem with h1 | h1
        · exact hCpl c hc h1
        · have : c = d.name := by simpa using h1
          exact hdnc (this ▸ hc)
      have hrem' : ∀ x ∈ removeName rem d.name, x ∈ ds :=
        fun x hx => hrem x (List.mem_of_mem_filter hx)
      obtain ⟨err, herr⟩ := ih (removeName rem d.name) (placed ++ [d.name]) hrem' hCrem' hCpl'
      refine ⟨err, ?_⟩
      simp only [kahn, hp]
      exact herr

/-- Declarative statement that the store has a dangling edge: some declared
service depends on an undeclared one. -/
def hasUnknownEdge (ds : List ServiceDescriptor) : Prop :=
  ∃ d, d ∈ ds ∧ ∃ e, e ∈ d.edges ∧ e.target ∉ svcNames ds

theorem findUnknown_none_iff {ds : List ServiceDescriptor} :
    findUnknown ds = none ↔ ∀ d ∈ ds, ∀ e ∈ d.edges, e.target ∈ svcNames ds := by
  rw [findUnknown, List.findSome?_eq_none_iff]
  constructor
  · intro h d hd e he
    have h2 := (List.findSome?_eq_none_iff.mp (h d hd)) e he
    simpa using h2
  · intro h d hd
    rw [List.findSome?_eq_none_iff]
    intro e he
    simp [h d hd e he]

theorem findUnknown_some_hasUnknown {ds : List ServiceDescriptor} {t : String}
    (h : findUnknown ds = some t) : hasUnknownEdge ds := by
  rw [findUnknown] at h
  obtain ⟨d, hd, hd2⟩ := List.exists_of_findSome?_eq_some h
  obtain ⟨e, he, he2⟩ := List.exists_of_findSome?_eq_some hd2
  refine ⟨d, hd, e, he, ?_⟩
  intro hmem
  have hc : (svcNames ds).contains e.target = true := by simpa using hmem
  simp [hc] at he2
  exact he2.1 hmem

theorem cyclic_build_error {ds : List ServiceDescriptor} (hnd : (svcNames ds).Nodup)
    (hc : cyclic ds) : ∃ err, build ds = Except.error err := by
  cases hf : findUnknown ds with
  | some t => exact ⟨GraphError.unknownServiceError t, by simp [build, hf]⟩
  | none =>
    obtain ⟨C, hCne, hout⟩ := cyclic_allOut hc
    have hCnames : ∀ c ∈ C, c ∈ svcNames ds := by
      intro c hc'
      obtain ⟨c', _, hce⟩ := hout c hc'
      rw [edgeB] at hce
      cases hl : lookupSvc ds c with
      | none => rw [hl] at hce; cases hce
      | some d => exact mem_names_of_lookup hl
    obtain ⟨err, herr⟩ := kahn_stuck_of_allOut hnd C hCne hout ds.length ds []
      (fun x hx => hx) hCnames (fun c _ hcp => absurd hcp (List.not_mem_nil c))
    exact ⟨err, by simp [build, hf, herr]⟩

theorem chain_of_seq {ds : List ServiceDescriptor} (f : Nat → String)
    (hedge : ∀ n, edgeB ds (f n) (f (n + 1)) = true) :
    ∀ (k i : Nat),
      edgeChain ds (f i) ((List.range k).map (fun m => f (i + 1 + m))) (f (i + k + 1)) := by
  intro k
  induction k with
  | zero =>
    intro i
    simpa [edgeChain] using hedge i
  | succ k ihk =>
    intro i
    have h1 := ihk i
    have h2 : edgeB ds (f (i + k + 1)) (f (i + k + 1 + 1)) = true := hedge (i + k + 1)
    have h3 := chain_snoc _ h1 h2
    have h4 : (List.range k).map (fun m => f (i + 1 + m)) ++ [f (i + k + 1)] =
        (List.range (k + 1)).map (fun m => f (i + 1 + m)) := by
      rw [List.range_succ, List.map_append]
      simp only [List.map_cons, List.map_nil]
      have : i + 1 + k = i + k + 1 := by omega
      rw [this]
    rw [h4] at h3
    have h5 : i + k + 1 + 1 = i + (k + 1) + 1 := by omega
    rw [h5] at h3
    exact h3

theorem cyclic_of_iter_eq {ds : List ServiceDescriptor} {f : Nat → String}
    (hedge : ∀ n, edgeB ds (f n) (f (n + 1)) = true) {i j : Nat} (hlt : i < j)
    (heq : f i = f j) : cyclic ds := by
  have hj : i + (j - i - 1) + 1 = j := by omega
  have hchain := chain_of_seq f hedge (j - i - 1) i
  rw [hj, ← heq] at hchain
  exact ⟨f i, _, hchain⟩

/-- A nonempty set of services each of which depends on another member of
the set contains a dependency cycle. -/
theorem allOut_cyclic {ds : List ServiceDescriptor} (R : List String) (hne : R ≠ [])
    (hout : ∀ c ∈ R, ∃ c', c' ∈ R ∧ edgeB ds c c' = true) : cyclic ds := by
  classical
  have hg : ∀ c : String, ∃ c', c ∈ R → (c' ∈ R ∧ edgeB ds c c' = true) := by
    intro c
    by_cases hc : c ∈ R
    · obtain ⟨c', hc'⟩ := hout c hc
      exact ⟨c', fun _ => hc'⟩
    · exact ⟨c, fun h => absurd h hc⟩
  choose g hgp using hg
  obtain ⟨a, ha⟩ := List.exists_mem_of_ne_nil R hne
  have hiter : ∀ n : Nat, g^[n] a ∈ R := by
    intro n
    induction n with
    | zero => simpa using ha
    | succ n ihn =>
      rw [Function.iterate_succ_apply']
      exact (hgp _ ihn).1
  have hedge : ∀ n : Nat, edgeB ds (g^[n] a) (g^[n + 1] a) = true := by
    intro n
    rw [Function.iterate_succ_apply']
    exact (hgp _ (hiter n)).2
  have hcard : R.toFinset.card < (Finset.range (R.length + 1)).card := by
    rw [Finset.card_range]
    exact Nat.lt_succ_of_le R.toFinset_card_le
  have hmaps : ∀ n ∈ Finset.range (R.length + 1), g^[n] a ∈ R.toFinset :=
    fun n _ => List.mem_toFinset.mpr (hiter n)
  obtain ⟨i, _, j, _, hij, hfeq⟩ :=
    Finset.exists_ne_map_eq_of_card_lt_of_maps_to hcard hmaps
  rcases Nat.lt_or_ge i j with hlt | hge
  · exact cyclic_of_iter_eq hedge hlt hfeq
  · have hlt : j < i := Nat.lt_of_le_of_ne hge (fun hh => hij hh.symm)
    exact cyclic_of_iter_eq hedge hlt hfeq.symm

theorem kahn_error_cyclic {ds : List ServiceDescriptor} (hnd : (svcNames ds).Nodup)
    (hknown : ∀ d ∈ ds, ∀ e ∈ d.edges, e.target ∈ svcNames ds) :
    ∀ (fuel : Nat) (rem : List ServiceDescriptor) (placed : List String),
      (∀ x ∈ rem, x ∈ ds) →
      (placed ++ svcNames rem).Perm (svcNames ds) →
      rem.length ≤ fuel →
      (∃ err, kahn fuel rem placed = Except.error err) → cyclic ds := by
  intro fuel
  induction fuel with
  | zero =>
    intro rem placed _ _ hlen hex
    obtain ⟨err, herr⟩ := hex
    have hre : rem = [] := List.length_eq_zero.mp (Nat.le_zero.mp hlen)
    subst hre
    simp [kahn] at herr
  | succ fuel ih =>
    intro rem placed hrem hperm hlen hex
    obtain ⟨err, herr⟩ := hex
    cases hp : pickReady rem placed with
    | some d =>
      simp only [kahn, hp] at herr
      have hp2 := hp
      rw [pickReady] at hp2
      have hdrem : d ∈ rem := List.mem_of_find?_eq_some hp2
      have hndp : (placed ++ svcNames rem).Nodup := hperm.symm.nodup hnd
      have hndr : (svcNames rem).Nodup := hndp.of_append_right
      have hnr : svcNames (removeName rem d.name) =
          (svcNames rem).filter (fun x => !(x == d.name)) := names_removeName rem d.name
      have hmemn : d.name ∈ svcNames rem := List.mem_map_of_mem (fun d => d.name) hdrem
      have hpermr : (svcNames rem).Perm (d.name :: svcNames (removeName rem d.name)) := by
        rw [hnr]
        have h1 := List.perm_cons_erase hmemn
        have h2 : (svcNames rem).erase d.name =
            (svcNames rem).filter (fun x => !(x == d.name)) :=
          hndr.erase_eq_filter d.name
        rw [h2] at h1
        exact h1
      have hperm' : ((placed ++ [d.name]) ++ svcNames (removeName rem d.name)).Perm
          (svcNames ds) := by
        have heq : (placed ++ [d.name]) ++ svcNames (removeName rem d.name) =
            placed ++ (d.name :: svcNames (removeName rem d.name)) := by simp
        rw [heq]
        exact ((hpermr.symm.append_left placed).trans hperm)
      have hrem' : ∀ x ∈ removeName rem d.name, x ∈ ds :=
        fun x hx => hrem x (List.mem_of_mem_filter hx)
      have hlt : (removeName rem d.name).length < rem.length := by
        rw [removeName]
        apply List.length_filter_lt_length_iff_exists.mpr
        exact ⟨d, hdrem, by simp⟩
      have hlen' : (removeName rem d.name).length ≤ fuel := by omega
      exact ih (removeName rem d.name) (placed ++ [d.name]) hrem' hperm' hlen' ⟨err, herr⟩
    | none =>
      by_cases hre : rem.isEmpty
      · simp [kahn, hp, hre] at herr
      · apply allOut_cyclic (svcNames rem)
        · intro hn
          rw [List.isEmpty_iff] at hre
          apply hre
          cases rem with
          | nil => rfl
          | cons x xs => cases hn
        · intro c hcn
          obtain ⟨dc, hdc, hdcn⟩ := List.mem_map.mp hcn
          have hp2 := hp
          rw [pickReady] at hp2
          have hall := List.find?_eq_none.mp hp2
          have hnall := hall dc hdc
          have hex2 : ∃ e, e ∈ dc.edges ∧ placed.contains e.target = false := by
            by_contra hno
            push_neg at hno
            apply hnall
            rw [List.all_eq_true]
            intro e hee
            cases hce : placed.contains e.target with
            | true => rfl
            | false => exact absurd hce (hno e hee)
          obtain ⟨e, hee, het⟩ := hex2
          have htn : e.target ∈ svcNames ds := hknown dc (hrem dc hdc) e hee
          have htp : e.target ∉ placed := by
            intro hmem
            have hcc : placed.contains e.target = true := by simpa using hmem
            rw [het] at hcc
            cases hcc
          have htr : e.target ∈ svcNames rem := by
            have hh := hperm.mem_iff.mpr htn
            rcases List.mem_append.mp hh with h1 | h1
            · exact absurd h1 htp
            · exact h1
          refine ⟨e.target, htr, ?_⟩
          have hlook : lookupSvc ds c = some dc := hdcn ▸ lookup_of_mem hnd (hrem dc hdc)
          rw [edgeB, hlook]
          exact List.any_eq_true.mpr ⟨e, hee, by simp⟩

/-- Over a store with unique service names, `build` fails exactly when the
store has a dependency cycle or a dangling edge. -/
theorem build_error_iff {ds : List ServiceDescriptor} (hnd : (svcNames ds).Nodup) :
    (∃ err, build ds = Except.error err) ↔ (cyclic ds ∨ hasUnknownEdge ds) := by
  constructor
  · rintro ⟨err, herr⟩
    cases hf : findUnknown ds with
    | some t => exact Or.inr (findUnknown_some_hasUnknown hf)
    | none =>
      left
      rw [build, hf] at herr
      exact kahn_error_cyclic hnd (findUnknown_none_iff.mp hf) ds.length ds []
        (fun x hx => hx) (by simp) (Nat.le_refl _) ⟨err, herr⟩
  · intro h
    rcases h with hc | hu
    · exact cyclic_build_error hnd hc
    · obtain ⟨d, hd, e, he, hem⟩ := hu
      cases hf : findUnknown ds with
      | some t => exact ⟨GraphError.unknownServiceError t, by simp [build, hf]⟩
      | none => exact absurd (findUnknown_none_iff.mp hf d hd e he) hem

/-! ### Failure propagation lemmas -/

theorem blocked_direct {ds : List ServiceDescriptor} {σ : OrchState}
    (hr : Reachable ds σ) (hq : schedQuiet ds σ = true) {s u : String}
    (hu : (getS σ u).status = Status.failed) (hun : unsatEdge ds σ s u) :
    (getS σ s).status = Status.failed ∧ (getS σ s).launched = false := by
  obtain ⟨d, e, hld, hee, het, hsat⟩ := hun
  have hinv := inv_reachable hr
  have hnl : (getS σ s).launched = false := by
    cases hl : (getS σ s).launched
    · rfl
    · have hes := (hinv s d hld).1 hl e hee
      rw [hes] at hsat
      cases hsat
  rcases (hinv s d hld).2 hnl with hp | hf
  · exfalso
    have hbg : blockGuard d σ = true := by
      rw [blockGuard, Bool.and_eq_true]
      constructor
      · rw [lookup_name hld, hp]
        rfl
      · apply List.any_eq_true.mpr
        refine ⟨e, hee, ?_⟩
        rw [het, hu, hsat]
        rfl
    have hall := List.all_eq_true.mp hq d (lookup_mem hld)
    rw [Bool.and_eq_true] at hall
    have h2 := hall.2
    rw [hbg] at h2
    cases h2
  · exact ⟨hf, hnl⟩

/-- In a reachable, scheduling-quiescent state, every transitive dependent
of a failed service through still-unsatisfied edges is itself `Failed`
without ever having been launched. -/
theorem blocked_of_chain {ds : List ServiceDescriptor} {σ : OrchState}
    (hr : Reachable ds σ) (hq : schedQuiet ds σ = true) :
    ∀ {s t : String}, BlockChain ds σ s t → (getS σ t).status = Status.failed →
      (getS σ s).status = Status.failed ∧ (getS σ s).launched = false := by
  intro s t hch
  induction hch with
  | direct hun => exact fun ht => blocked_direct hr hq ht hun
  | step hun _ ihc => exact fun ht => blocked_direct hr hq (ihc ht).1 hun

theorem mem_reportBlocked {ds : List ServiceDescriptor} {σ : OrchState} {s : String}
    (hm : s ∈ svcNames ds) (hf : (getS σ s).status = Status.failed)
    (hl : (getS σ s).launched = false) : s ∈ reportBlocked ds σ := by
  obtain ⟨d, hd, hdn⟩ := List.mem_map.mp hm
  rw [reportBlocked]
  apply List.mem_map.mpr
  refine ⟨d, ?_, hdn⟩
  apply List.mem_filter.mpr
  refine ⟨hd, ?_⟩
  rw [hdn, hf, hl]
  rfl

theorem mem_reportFailed {ds : List ServiceDescriptor} {σ : OrchState} {s : String}
    (hm : s ∈ svcNames ds) (hf : (getS σ s).status = Status.failed) :
    s ∈ reportFailed ds σ := by
  obtain ⟨d, hd, hdn⟩ := List.mem_map.mp hm
  rw [reportFailed]
  apply List.mem_map.mpr
  refine ⟨d, ?_, hdn⟩
  apply List.mem_filter.mpr
  refine ⟨hd, ?_⟩
  rw [hdn, hf]
  rfl

theorem launched_of_completed {ds : List ServiceDescriptor} {σ : OrchState}
    {s : String} {d : ServiceDescriptor} (hinv : OrchInv ds σ)
    (hld : lookupSvc ds s = some d) (hc : (getS σ s).status = Status.completed) :
    (getS σ s).launched = true := by
  cases hl : (getS σ s).launched
  · rcases (hinv s d hld).2 hl with hp | hf
    · rw [hc] at hp; cases hp
    · rw [hc] at hf; cases hf
  · rfl

/-! ### Claim theorems -/

/-- C1: In every run of the Readiness Orchestrator a service is never
launched before every one of its dependency edges is satisfied, with
satisfaction per condition type given by `edgeSatB` (`Started` once the
target has entered `Launching`, `Healthy` on the target's first `Healthy`
transition, `CompletedSuccessfully` only on the target's `Completed`
status); in particular, in every reachable state of the compose store in
which `demo-notebooks` is launched, `mongo-init`, `vector-search-init` and
`cdc-init` have completed successfully and `dask-scheduler` and
`dask-worker` have been started. -/
theorem c1_launch_safety :
    (∀ (ds : List ServiceDescriptor) (σ : OrchState) (s : String) (d : ServiceDescriptor),
      Reachable ds σ → lookupSvc ds s = some d → (getS σ s).launched = true →
      ∀ e ∈ d.edges, edgeSatB σ e = true) ∧
    (∀ σ : OrchState, Reachable composeDs σ → (getS σ nDemo).launched = true →
      (getS σ nMongoInit).status = Status.completed ∧
      (getS σ nVsInit).status = Status.completed ∧
      (getS σ nCdcInit).status = Status.completed ∧
      (getS σ nDaskScheduler).launched = true ∧
      (getS σ nDaskWorker).launched = true) := by
  constructor
  · intro ds σ s d hr hld hl
    exact (inv_reachable hr s d hld).1 hl
  · intro σ hr hl
    have hinv := inv_reachable hr
    have hld : lookupSvc composeDs nDemo = some demoD := by decide
    have hsat := (hinv nDemo demoD hld).1 hl
    refine ⟨?_, ?_, ?_, ?_, ?_⟩
    · have h := hsat { target := nMongoInit, cond := Condition.completedSuccessfully }
        (by decide)
      simpa [edgeSatB] using h
    · have h := hsat { target := nVsInit, cond := Condition.completedSuccessfully }
        (by decide)
      simpa [edgeSatB] using h
    · have h := hsat { target := nCdcInit, cond := Condition.completedSuccessfully }
        (by decide)
      simpa [edgeSatB] using h
    · have h := hsat { target := nDaskScheduler, cond := Condition.started } (by decide)
      simpa [edgeSatB] using h
    · have h := hsat { target := nDaskWorker, cond := Condition.started } (by decide)
      simpa [edgeSatB] using h

/-- Witness for C1: the complete startup run reaches a state in which
`demo-notebooks` is launched and the five gate conditions hold. -/
theorem c1_launch_safety_witness :
    Reachable composeDs fullState ∧ (getS fullState nDemo).launched = true ∧
    ((getS fullState nMongoInit).status = Status.completed ∧
     (getS fullState nVsInit).status = Status.completed ∧
     (getS fullState nCdcInit).status = Status.completed ∧
     (getS fullState nDaskScheduler).launched = true ∧
     (getS fullState nDaskWorker).launched = true) :=
  ⟨fullState_reachable, by decide,
   c1_launch_safety.2 fullState fullState_reachable (by decide)⟩

/-- C2: `build` returns a `GraphError` exactly when the descriptors contain
a dependency cycle or an edge to an undeclared service; the cycle `A→B→A`
is reported as a `CycleError` naming both `A` and `B`, a dangling edge as
an `UnknownServiceError` naming the missing target, and in every error
case no orchestration run exists, so no service is ever launched. -/
theorem c2_build_errors :
    (∀ ds : List ServiceDescriptor, (svcNames ds).Nodup →
      ((∃ err, build ds = Except.error err) ↔ (cyclic ds ∨ hasUnknownEdge ds))) ∧
    (∃ l, build abCycleDs = Except.error (GraphError.cycleError l) ∧ nA ∈ l ∧ nB ∈ l) ∧
    build ghostDs = Except.error (GraphError.unknownServiceError nGhost) ∧
    (∀ (ds : List ServiceDescriptor) (err : GraphError) (σ : OrchState),
      build ds = Except.error err → ¬OrchRun ds σ) := by
  refine ⟨?_, ?_, ?_, ?_⟩
  · intro ds hnd
    exact build_error_iff hnd
  · exact ⟨[nA, nB], by decide, by decide, by decide⟩
  · decide
  · intro ds err σ hb hrun
    have h1 := hrun.1
    rw [hb] at h1
    simp [Except.isOk, Except.toBool] at h1

/-- Witness for C2: the `A→B→A` store has unique names and builds with an
error, obtained through the equivalence from its concrete cycle. -/
theorem c2_build_errors_witness :
    (svcNames abCycleDs).Nodup ∧ ∃ err, build abCycleDs = Except.error err :=
  ⟨by decide,
   (c2_build_errors.1 abCycleDs (by decide)).mpr
     (Or.inl ⟨nA, [nB], by decide, by decide⟩)⟩

/-- Counterexample to C3 as stated: in a reachable run of the compose store
`dask-scheduler` reaches `Failed` after its direct dependent `dask-worker`
(a `started` edge, already satisfied) was launched; the dependent is
launched and not `Failed`, so not every transitive dependent of a failed
service is marked `Failed` without being launched. -/
theorem c3_counterexample :
    Reachable composeDs failLateState ∧
    (getS failLateState nDaskScheduler).status = Status.failed ∧
    edgeB composeDs nDaskWorker nDaskScheduler = true ∧
    (getS failLateState nDaskWorker).launched = true ∧
    (getS failLateState nDaskWorker).status ≠ Status.failed :=
  ⟨failLateState_reachable, by decide, by decide, by decide, by decide⟩

/-- C3 (amended): if a service reaches `Failed`, then in every reachable
scheduling-quiescent state every transitive dependent connected through
still-unsatisfied dependency edges is marked `Failed` without ever being
launched, and the run result reports the originating failed service and
the blocked dependents; dependents whose edges were already satisfied
before the failure may have launched and are not covered. -/
theorem c3_failure_propagation :
    ∀ (ds : List ServiceDescriptor) (σ : OrchState) (s t : String),
      Reachable ds σ → schedQuiet ds σ = true → (getS σ t).status = Status.failed →
      BlockChain ds σ s t →
      (getS σ s).status = Status.failed ∧ (getS σ s).launched = false ∧
      (s ∈ svcNames ds → s ∈ reportBlocked ds σ) ∧
      (t ∈ svcNames ds → t ∈ reportFailed ds σ) := by
  intro ds σ s t hr hq ht hch
  obtain ⟨hf, hl⟩ := blocked_of_chain hr hq hch ht
  exact ⟨hf, hl, fun hm => mem_reportBlocked hm hf hl, fun hm => mem_reportFailed hm ht⟩

/-- Witness for the amended C3: in the run where `mongo-init` fails, the
transitive dependent `vector-search-init` (via the unsatisfied chain
`vector-search-init → vector-search → mongo-init`) is `Failed`, never
launched, and reported blocked, with `mongo-init` reported failed. -/
theorem c3_failure_propagation_witness :
    Reachable composeDs blockedState ∧ schedQuiet composeDs blockedState = true ∧
    (getS blockedState nMongoInit).status = Status.failed ∧
    ((getS blockedState nVsInit).status = Status.failed ∧
     (getS blockedState nVsInit).launched = false ∧
     nVsInit ∈ reportBlocked composeDs blockedState ∧
     nMongoInit ∈ reportFailed composeDs blockedState) := by
  have hch : BlockChain composeDs blockedState nVsInit nMongoInit :=
    BlockChain.step
      ⟨vsInitD, { target := nVectorSearch, cond := Condition.healthy },
        by decide, by decide, rfl, by decide⟩
      (BlockChain.direct
        ⟨vectorSearchD, { target := nMongoInit, cond := Condition.completedSuccessfully },
          by decide, by decide, rfl, by decide⟩)
  have h := c3_failure_propagation composeDs blockedState nVsInit nMongoInit
    blockedState_reachable (by decide) (by decide) hch
  exact ⟨blockedState_reachable, by decide, by decide,
    h.1, h.2.1, h.2.2.1 (by decide), h.2.2.2 (by decide)⟩

/-- C4: the Health Prober's `Healthy` transition is idempotent - every
probe success resets the consecutive-failure counter to 0, and a `Healthy`
transition event is emitted if and only if the previous status was not
`Healthy`; further successes while already `Healthy` emit nothing. -/
theorem c4_healthy_idempotent :
    ∀ (hc : HealthCheckSpec) (st : ProbeState) (t : Nat) (exited : Bool),
      (probeStep hc st t true exited).state.failures = 0 ∧
      (HEvent.healthyT ∈ (probeStep hc st t true exited).events ↔
        st.status ≠ Status.healthy) ∧
      (st.status = Status.healthy → (probeStep hc st t true exited).events = []) := by
  intro hc st t exited
  refine ⟨rfl, ?_, ?_⟩
  · by_cases h : st.status = Status.healthy
    · simp [probeStep, h]
    · simp [probeStep, h]
  · intro h
    simp [probeStep, h]

/-- Witness for C4 over the `vector-search` health check: a success while
already `Healthy` emits nothing and resets the counter; a success while
`Running` emits `Healthy`. -/
theorem c4_healthy_idempotent_witness :
    (probeStep vectorSearchHC ⟨Status.healthy, 7⟩ 100 true false).state.failures = 0 ∧
    (probeStep vectorSearchHC ⟨Status.healthy, 7⟩ 100 true false).events = [] ∧
    HEvent.healthyT ∈ (probeStep vectorSearchHC ⟨Status.running, 7⟩ 100 true false).events :=
  ⟨(c4_healthy_idempotent vectorSearchHC ⟨Status.healthy, 7⟩ 100 false).1,
   (c4_healthy_idempotent vectorSearchHC ⟨Status.healthy, 7⟩ 100 false).2.2 rfl,
   (c4_healthy_idempotent vectorSearchHC ⟨Status.running, 7⟩ 100 false).2.1.mpr
     (by decide)⟩

/-- C5: the prober waits `startPeriod` before the first probe (probe `n`
runs at `startPeriod + n * interval`), a probe failure inside the
`startPeriod` window leaves the prober state unchanged (no counter advance,
no `Unhealthy` event), and for `vector-search` and `cdc` this window is 60
seconds. -/
theorem c5_grace_period :
    (∀ hc : HealthCheckSpec, probeTime hc 0 = hc.startPeriod) ∧
    (∀ (hc : HealthCheckSpec) (n : Nat), hc.startPeriod ≤ probeTime hc n) ∧
    (∀ (hc : HealthCheckSpec) (st : ProbeState) (t : Nat) (exited : Bool),
      t < hc.startPeriod →
      probeStep hc st t false exited = ⟨st, [], true⟩) ∧
    vectorSearchHC.startPeriod = 60 ∧ cdcHC.startPeriod = 60 := by
  refine ⟨?_, ?_, ?_, rfl, rfl⟩
  · intro hc
    simp [probeTime]
  · intro hc n
    simp [probeTime]
  · intro hc st t exited h
    simp [probeStep, h]

/-- Witness for C5: a failure at 30 seconds, inside the 60-second window
of the `vector-search` health check, changes nothing. -/
theorem c5_grace_period_witness :
    probeTime vectorSearchHC 0 = 60 ∧ 30 < vectorSearchHC.startPeriod ∧
    probeStep vectorSearchHC ⟨Status.running, 3⟩ 30 false false =
      ⟨⟨Status.running, 3⟩, [], true⟩ :=
  ⟨c5_grace_period.1 vectorSearchHC, by decide,
   c5_grace_period.2.2.1 vectorSearchHC ⟨Status.running, 3⟩ 30 false (by decide)⟩

/-- C6: after the grace period each probe failure increments the
consecutive-failure counter, with `Unhealthy` emitted exactly when the
counter reaches `retries` (10 for `vector-search` and `cdc`) while the
process is alive - after which probing continues - and if the process has
exited at exhaustion, probing stops and the service is marked `Failed`;
a probe exceeding `timeout` counts as a failure. -/
theorem c6_retry_exhaustion :
    (∀ (hc : HealthCheckSpec) (st : ProbeState) (t : Nat) (exited : Bool),
      hc.startPeriod ≤ t → st.failures < hc.retries → st.status ≠ Status.unhealthy →
      ((probeStep hc st t false exited).state.failures = st.failures + 1) ∧
      (HEvent.unhealthyT ∈ (probeStep hc st t false exited).events ↔
        (st.failures + 1 = hc.retries ∧ exited = false)) ∧
      (st.failures + 1 = hc.retries → exited = false →
        (probeStep hc st t false exited).keep = true) ∧
      (st.failures + 1 = hc.retries → exited = true →
        (probeStep hc st t false exited).state.status = Status.failed ∧
        (probeStep hc st t false exited).keep = false)) ∧
    (∀ (d tmo : Nat) (r : Bool), tmo < d → probeOutcome d tmo r = false) ∧
    vectorSearchHC.retries = 10 ∧ cdcHC.retries = 10 := by
  refine ⟨?_, ?_, rfl, rfl⟩
  · intro hc st t exited h1 h2 h3
    have hnt : ¬(t < hc.startPeriod) := Nat.not_lt.mpr h1
    by_cases hre : st.failures + 1 < hc.retries
    · have hA : probeStep hc st t false exited =
          ⟨⟨st.status, st.failures + 1⟩, [], true⟩ := by
        simp [probeStep, hnt, hre]
      refine ⟨(by rw [hA]), ?_, fun hr2 _ => (by omega), fun hr2 _ => (by omega)⟩
      rw [hA]
      constructor
      · intro hmem
        cases hmem
      · rintro ⟨ha, _⟩
        omega
    · have heq : st.failures + 1 = hc.retries := by omega
      cases hex : exited
      · have hB : probeStep hc st t false false =
            ⟨⟨Status.unhealthy, st.failures + 1⟩, [HEvent.unhealthyT], true⟩ := by
          simp [probeStep, hnt, hre, h3]
        refine ⟨(by rw [hB]), ?_, fun _ _ => (by rw [hB]), fun _ hc2 => (by cases hc2)⟩
        rw [hB]
        constructor
        · intro _
          exact ⟨heq, rfl⟩
        · intro _
          exact List.mem_cons_self _ _
      · have hC : probeStep hc st t false true =
            ⟨⟨Status.failed, st.failures + 1⟩, [HEvent.failedT], false⟩ := by
          simp [probeStep, hnt, hre]
        refine ⟨(by rw [hC]), ?_, fun _ hc2 => (by cases hc2),
          fun _ _ => (by rw [hC]; exact ⟨rfl, rfl⟩)⟩
        rw [hC]
        constructor
        · intro hmem
          simp at hmem
        · rintro ⟨_, hc2⟩
          cases hc2
  · intro d tmo r h
    have hnle : ¬(d ≤ tmo) := Nat.not_le.mpr h
    simp [probeOutcome, hnle]

/-- Witness for C6 over the `vector-search` health check: the tenth
consecutive post-grace failure emits `Unhealthy` and probing continues;
a probe taking 31 seconds against the 30-second timeout fails. -/
theorem c6_retry_exhaustion_witness :
    (probeStep vectorSearchHC ⟨Status.running, 9⟩ 100 false false).state.failures = 10 ∧
    HEvent.unhealthyT ∈ (probeStep vectorSearchHC ⟨Status.running, 9⟩ 100 false false).events ∧
    (probeStep vectorSearchHC ⟨Status.running, 9⟩ 100 false false).keep = true ∧
    probeOutcome 31 30 true = false :=
  ⟨(c6_retry_exhaustion.1 vectorSearchHC ⟨Status.running, 9⟩ 100 false
      (by decide) (by decide) (by decide)).1,
   (c6_retry_exhaustion.1 vectorSearchHC ⟨Status.running, 9⟩ 100 false
      (by decide) (by decide) (by decide)).2.1.mpr ⟨rfl, rfl⟩,
   (c6_retry_exhaustion.1 vectorSearchHC ⟨Status.running, 9⟩ 100 false
      (by decide) (by decide) (by decide)).2.2.1 rfl rfl,
   c6_retry_exhaustion.2.1 31 30 true (by decide)⟩

/-- Counterexample to C7 as stated: in the compose store the edge from
`mongo-init` to `mongodb` is a `started` edge, and a reachable run launches
`mongo-init` while `mongodb` is still only `Launching` - neither `Healthy`
nor ever healthy - so the code chain does not instantiate the `healthy`
condition of the abstract scenario's first edge. -/
theorem c7_counterexample :
    Reachable composeDs earlyInitState ∧
    mongoInitD.edges = [{ target := nMongodb, cond := Condition.started }] ∧
    (getS earlyInitState nMongoInit).launched = true ∧
    (getS earlyInitState nMongodb).status = Status.launching ∧
    (getS earlyInitState nMongodb).status ≠ Status.healthy ∧
    (getS earlyInitState nMongodb).everHealthy = false :=
  ⟨earlyInitState_reachable, rfl, by decide, by decide, by decide, by decide⟩

/-- C7 (amended): in the abstract §8 scenario `db → init → svc`, `db` is
eligible to launch immediately, `init` launches only once `db` satisfies
`Healthy` edges, `svc` launches only once `init` is `Completed`, and a
successful probe past `startPeriod` makes `svc` `Healthy`; the code chain
`mongodb → mongo-init → vector-search` instantiates the second edge
(`completed_successfully`, with `vector-search` health-checked), but its
first edge is `started`, so `mongo-init` launches once `mongodb` has been
started rather than once it is healthy. -/
theorem c7_scenario :
    (applyAct scenarioDs (initState scenarioDs) (Act.launch nDb)).isSome = true ∧
    (∀ σ : OrchState, Reachable scenarioDs σ → (getS σ nInitSvc).launched = true →
      (getS σ nDb).everHealthy = true) ∧
    (∀ σ : OrchState, Reachable scenarioDs σ → (getS σ nSvc).launched = true →
      (getS σ nInitSvc).status = Status.completed) ∧
    (∀ (st : ProbeState) (t : Nat) (exited : Bool), scenarioHC.startPeriod ≤ t →
      (probeStep scenarioHC st t true exited).state.status = Status.healthy) ∧
    mongoInitD.edges = [{ target := nMongodb, cond := Condition.started }] ∧
    vectorSearchD.edges = [{ target := nMongoInit, cond := Condition.completedSuccessfully }] ∧
    vectorSearchD.healthcheck = some vectorSearchHC ∧
    (∀ σ : OrchState, Reachable composeDs σ → (getS σ nMongoInit).launched = true →
      (getS σ nMongodb).launched = true) ∧
    (∀ σ : OrchState, Reachable composeDs σ → (getS σ nVectorSearch).launched = true →
      (getS σ nMongoInit).status = Status.completed) := by
  refine ⟨(by decide), ?_, ?_, ?_, rfl, rfl, rfl, ?_, ?_⟩
  · intro σ hr hl
    have hinv := inv_reachable hr
    have hld : lookupSvc scenarioDs nInitSvc = some initD := by decide
    have h := (hinv nInitSvc initD hld).1 hl
      { target := nDb, cond := Condition.healthy } (by decide)
    simpa [edgeSatB] using h
  · intro σ hr hl
    have hinv := inv_reachable hr
    have hld : lookupSvc scenarioDs nSvc = some svcD := by decide
    have h := (hinv nSvc svcD hld).1 hl
      { target := nInitSvc, cond := Condition.completedSuccessfully } (by decide)
    simpa [edgeSatB] using h
  · intro st t exited _
    rfl
  · intro σ hr hl
    have hinv := inv_reachable hr
    have hld : lookupSvc composeDs nMongoInit = some mongoInitD := by decide
    have h := (hinv nMongoInit mongoInitD hld).1 hl
      { target := nMongodb, cond := Condition.started } (by decide)
    simpa [edgeSatB] using h
  · intro σ hr hl
    have hinv := inv_reachable hr
    have hld : lookupSvc composeDs nVectorSearch = some vectorSearchD := by decide
    have h := (hinv nVectorSearch vectorSearchD hld).1 hl
      { target := nMongoInit, cond := Condition.completedSuccessfully } (by decide)
    simpa [edgeSatB] using h

/-- Witness for the amended C7: the scenario run reaches a state where
`init` and `svc` are launched, so `db` counts healthy and `init` is
completed; on the compose side the full run has `mongo-init` launched with
`mongodb` launched. -/
theorem c7_scenario_witness :
    Reachable scenarioDs scenarioState ∧
    (getS scenarioState nInitSvc).launched = true ∧
    (getS scenarioState nDb).everHealthy = true ∧
    (getS scenarioState nSvc).launched = true ∧
    (getS scenarioState nInitSvc).status = Status.completed ∧
    (probeStep scenarioHC ⟨Status.running, 0⟩ 5 true false).state.status = Status.healthy ∧
    (getS fullState nMongoInit).launched = true ∧
    (getS fullState nMongodb).launched = true :=
  ⟨scenarioState_reachable, by decide,
   c7_scenario.2.1 scenarioState scenarioState_reachable (by decide), by decide,
   c7_scenario.2.2.1 scenarioState scenarioState_reachable (by decide),
   c7_scenario.2.2.2.1 ⟨Status.running, 0⟩ 5 false (by decide), by decide,
   c7_scenario.2.2.2.2.2.2.2.1 fullState fullState_reachable (by decide)⟩

/-- C8: on an explicit stop request services are signaled to stop in
reverse-dependency order - for every dependency edge the dependent comes
before its dependency in `stopOrder` of the built launch order; in
particular on the compose store `demo-notebooks` is stopped before
`dask-worker`, and `dask-worker` before `dask-scheduler`. -/
theorem c8_stop_order :
    (∀ (ds : List ServiceDescriptor) (ord : List String) (s t : String),
      (svcNames ds).Nodup → build ds = Except.ok ord → edgeB ds s t = true →
      Precedes (stopOrder ord) s t) ∧
    (build composeDs = Except.ok composeOrder ∧
     Precedes (stopOrder composeOrder) nDemo nDaskWorker ∧
     Precedes (stopOrder composeOrder) nDaskWorker nDaskScheduler) := by
  have hgen : ∀ (ds : List ServiceDescriptor) (ord : List String) (s t : String),
      (svcNames ds).Nodup → build ds = Except.ok ord → edgeB ds s t = true →
      Precedes (stopOrder ord) s t := by
    intro ds ord s t hnd hb he
    rw [edgeB] at he
    cases hl : lookupSvc ds s with
    | none =>
      rw [hl] at he
      cases he
    | some d =>
      rw [hl] at he
      obtain ⟨e, hee, het⟩ := List.any_eq_true.mp he
      rw [beq_iff_eq] at het
      have hp := (build_ok_prec hnd hb).1 s d hl e hee
      rw [het] at hp
      exact Precedes_reverse hp
  refine ⟨hgen, (by decide), ?_, ?_⟩
  · exact hgen composeDs composeOrder nDemo nDaskWorker (by decide) (by decide) (by decide)
  · exact hgen composeDs composeOrder nDaskWorker nDaskScheduler (by decide) (by decide)
      (by decide)

/-- Witness for C8: a further concrete instance - `promtail` depends on
`loki`, so `promtail` is stopped before `loki`. -/
theorem c8_stop_order_witness :
    edgeB composeDs nPromtail nLoki = true ∧
    Precedes (stopOrder composeOrder) nPromtail nLoki :=
  ⟨by decide,
   c8_stop_order.1 composeDs composeOrder nPromtail nLoki (by decide) (by decide)
     (by decide)⟩

/-- C9: the concrete compose store is well-formed - `build` succeeds (and
returns the launch order `composeOrder`), the dependency graph is acyclic,
every `depends_on` target names a declared service, and the declared
services are exactly the fourteen of the file. -/
theorem c9_compose_builds :
    build composeDs = Except.ok composeOrder ∧
    ¬cyclic composeDs ∧
    (∀ d ∈ composeDs, ∀ e ∈ d.edges, e.target ∈ svcNames composeDs) ∧
    svcNames composeDs =
      [ nMongodb, nMongoInit, nVectorSearch, nVsInit, nCdc, nCdcInit
      , nDaskScheduler, nDaskWorker, nGrafana, nLoki, nPromtail, nPrometheus
      , nCadvisor, nDemo ] := by
  refine ⟨(by decide), ?_, (by decide), (by decide)⟩
  intro hcyc
  obtain ⟨err, herr⟩ := cyclic_build_error (by decide) hcyc
  have hb : build composeDs = Except.ok composeOrder := by decide
  rw [hb] at herr
  cases herr

/-- Witness for C9: one concrete instance of the target-declared clause -
`grafana`'s edge target `loki` is a declared service. -/
theorem c9_compose_builds_witness :
    grafanaD ∈ composeDs ∧ nLoki ∈ svcNames composeDs :=
  ⟨by decide,
   c9_compose_builds.2.2.1 grafanaD (by decide)
     { target := nLoki, cond := Condition.started } (by decide)⟩

/-- C10: `vector-search-init` and `cdc-init` are one-shot gate services (no
command beyond the image default, no health check, a single
`service_healthy` edge), and in every run `demo-notebooks` - whose direct
edges to them are `service_completed_successfully` - is never launched
before both `vector-search` and `cdc` have had their first `Healthy`
transition. -/
theorem c10_init_gates :
    vsInitD.command = none ∧ vsInitD.healthcheck = none ∧
    vsInitD.edges = [{ target := nVectorSearch, cond := Condition.healthy }] ∧
    cdcInitD.command = none ∧ cdcInitD.healthcheck = none ∧
    cdcInitD.edges = [{ target := nCdc, cond := Condition.healthy }] ∧
    (∀ σ : OrchState, Reachable composeDs σ → (getS σ nDemo).launched = true →
      (getS σ nVectorSearch).everHealthy = true ∧
      (getS σ nCdc).everHealthy = true) := by
  refine ⟨rfl, rfl, rfl, rfl, rfl, rfl, ?_⟩
  intro σ hr hl
  have hinv := inv_reachable hr
  have hldD : lookupSvc composeDs nDemo = some demoD := by decide
  have hsat := (hinv nDemo demoD hldD).1 hl
  constructor
  · have h1 : (getS σ nVsInit).status = Status.completed := by
      have h := hsat { target := nVsInit, cond := Condition.completedSuccessfully }
        (by decide)
      simpa [edgeSatB] using h
    have hldV : lookupSvc composeDs nVsInit = some vsInitD := by decide
    have h2 : (getS σ nVsInit).launched = true := launched_of_completed hinv hldV h1
    have h3 := (hinv nVsInit vsInitD hldV).1 h2
      { target := nVectorSearch, cond := Condition.healthy } (by decide)
    simpa [edgeSatB] using h3
  · have h1 : (getS σ nCdcInit).status = Status.completed := by
      have h := hsat { target := nCdcInit, cond := Condition.completedSuccessfully }
        (by decide)
      simpa [edgeSatB] using h
    have hldC : lookupSvc composeDs nCdcInit = some cdcInitD := by decide
    have h2 : (getS σ nCdcInit).launched = true := launched_of_completed hinv hldC h1
    have h3 := (hinv nCdcInit cdcInitD hldC).1 h2
      { target := nCdc, cond := Condition.healthy } (by decide)
    simpa [edgeSatB] using h3

/-- Witness for C10: the complete startup run launches `demo-notebooks`,
and there `vector-search` and `cdc` have indeed been healthy. -/
theorem c10_init_gates_witness :
    Reachable composeDs fullState ∧ (getS fullState nDemo).launched = true ∧
    (getS fullState nVectorSearch).everHealthy = true ∧
    (getS fullState nCdc).everHealthy = true :=
  ⟨fullState_reachable, by decide,
   (c10_init_gates.2.2.2.2.2.2 fullState fullState_reachable (by decide)).1,
   (c10_init_gates.2.2.2.2.2.2 fullState fullState_reachable (by decide)).2⟩
